import Mathlib

/-!
Verification development for the socketrpc-gen code generator.

The generator reads two TypeScript interfaces (ClientFunctions / ServerFunctions),
resolves their interface-extension chains into flat signature lists, and emits
typed Socket.IO RPC bindings (types.generated.ts, client.generated.ts,
server.generated.ts) plus one-time package scaffolding.

This file shallowly embeds:
  * the runtime semantics of the emitted code templates (error normalisation,
    the RpcError type guard, the void/non-void listener logic, the
    dispose/registration lifecycle) as written by generateFactoryFunction
    and generateTypesFile;
  * the contract resolver (getAllBaseInterfaces, extractSignatureFromProperty,
    extractFunctionSignatures) over an explicit interface environment;
  * the type-import resolution (addCustomTypeImports);
  * the file-emission pipeline (generateRpcPackage, ensurePackageStructure)
    over an explicit file-system state.
-/

-- ============================================
-- JS VALUE MODEL (runtime semantics of emitted code)
-- ============================================

/-- Model of a JavaScript runtime value, as manipulated by the emitted code.
`vErrObj m` models an `Error` instance whose `message` property is `m`;
`vObj` models a plain object as an ordered field list. -/
inductive JsValue where
  | vUndefined : JsValue
  | vNull : JsValue
  | vBool : Bool → JsValue
  | vNum : Int → JsValue
  | vStr : String → JsValue
  | vErrObj : String → JsValue
  | vObj : List (String × JsValue) → JsValue

/-- JavaScript truthiness, as used by `!!obj` and by `result && ...` in the
emitted guard and listener code. -/
def truthy : JsValue → Bool
  | .vUndefined => false
  | .vNull => false
  | .vBool b => b
  | .vNum n => n != 0
  | .vStr s => s != ""
  | .vErrObj _ => true
  | .vObj _ => true

/-- The JavaScript `typeof` operator (note `typeof null = "object"`). -/
def typeofJs : JsValue → String
  | .vUndefined => "undefined"
  | .vNull => "object"
  | .vBool _ => "boolean"
  | .vNum _ => "number"
  | .vStr _ => "string"
  | .vErrObj _ => "object"
  | .vObj _ => "object"

/-- Property access `v.f`: field lookup on objects, the `message` property on
`Error` instances, `undefined` otherwise. -/
def getField : JsValue → String → JsValue
  | .vObj fields, f =>
    match fields.lookup f with
    | some v => v
    | none => .vUndefined
  | .vErrObj m, f => if f = "message" then .vStr m else .vUndefined
  | _, _ => .vUndefined

/-- The JavaScript `in` operator restricted to the shapes the emitted code
tests (`'code' in result`, `'message' in result`). -/
def hasField : JsValue → String → Bool
  | .vObj fields, f => fields.any (fun p => p.1 == f)
  | .vErrObj _, f => f == "message"
  | _, _ => false

/-- The JavaScript `String(v)` conversion. -/
def jsToString : JsValue → String
  | .vUndefined => "undefined"
  | .vNull => "null"
  | .vBool b => if b then "true" else "false"
  | .vNum n => toString n
  | .vStr s => s
  | .vErrObj m => "Error: " ++ m
  | .vObj _ => "[object Object]"

/-- The expression `err instanceof Error ? err.message : String(err)` that the
emitted catch blocks use to extract a message from a caught condition. -/
def caughtMessage : JsValue → String
  | .vErrObj m => m
  | e => jsToString e

/-- The object literal `{ message: ..., code: 'INTERNAL_ERROR', data: undefined }`
built by every emitted catch block from a caught condition `e`
(generateFactoryFunction's inlined listener and call templates). -/
def rpcErrorOfCaught (e : JsValue) : JsValue :=
  .vObj [("message", .vStr (caughtMessage e)),
         ("code", .vStr "INTERNAL_ERROR"),
         ("data", .vUndefined)]

/-- Semantics of the emitted type guard
`isRpcError(obj) = !!obj && typeof obj.message === 'string' && typeof obj.code === 'string'`
from generateTypesFile. -/
def isRpcError (obj : JsValue) : Bool :=
  truthy obj && (typeofJs (getField obj "message") == "string")
    && (typeofJs (getField obj "code") == "string")

/-- Outcome of `socket.timeout(t).emitWithAck(...)`: either an acknowledgment
value arrives, or the promise rejects (acknowledgment timeout or
transport-level failure) with a thrown condition. -/
inductive AckOutcome where
  | acked : JsValue → AckOutcome
  | rejected : JsValue → AckOutcome

/-- Semantics of the emitted non-void call operation: try `emitWithAck` and on
any rejection resolve with the normalised RpcError object. Totality of this
function models that the generated call never raises. -/
def nonVoidCallResult : AckOutcome → JsValue
  | .acked v => v
  | .rejected e => rpcErrorOfCaught e

/-- Semantics of the emitted non-void handler listener: the acknowledgment it
sends back is the handler's resolved value, or the normalised RpcError object
when the user handler raises. -/
def nonVoidHandlerAck : Except JsValue JsValue → JsValue
  | .ok v => v
  | .error e => rpcErrorOfCaught e

/-- The emitted void-listener shape test
`result && typeof result === 'object' && 'code' in result && 'message' in result`. -/
def errorShapeCheck (result : JsValue) : Bool :=
  truthy result && (typeofJs result == "object")
    && hasField result "code" && hasField result "message"

/-- Semantics of the emitted void handler listener, as the list of
`(eventName, payload)` pairs it emits on the socket: on a raised condition it
publishes the normalised RpcError on `rpcError`; on a resolved value matching
the error shape it publishes that value; otherwise it emits nothing. Totality
models that the listener never re-raises. -/
def voidHandlerEmits : Except JsValue JsValue → List (String × JsValue)
  | .ok v => if errorShapeCheck v then [("rpcError", v)] else []
  | .error e => [("rpcError", rpcErrorOfCaught e)]

-- ============================================
-- LIFECYCLE MODEL (factory instance, dispose)
-- ============================================

/-- A socket's listener registry: ordered `(eventName, listenerId)` pairs. -/
structure SocketState where
  listeners : List (String × Nat)
deriving DecidableEq

/-- Model of `socket.on(event, listener)`. -/
def socketOn (s : SocketState) (ev : String) (lid : Nat) : SocketState :=
  ⟨s.listeners ++ [(ev, lid)]⟩

/-- Model of `socket.off(event, listener)`. -/
def socketOff (s : SocketState) (ev : String) (lid : Nat) : SocketState :=
  ⟨s.listeners.eraseP (fun p => p.1 == ev && p.2 == lid)⟩

/-- State of one instance returned by the emitted createRpcClient /
createRpcServer factory: the socket, the collected unsubscriber closures
(identified by the `(event, listener)` pair they remove), the `_disposed`
flag, and a log of the unsubscriber invocations performed so far. -/
structure RpcInstance where
  socketSt : SocketState
  unsubscribers : List (String × Nat)
  disposedFlag : Bool
  invoked : List (String × Nat)
deriving DecidableEq

/-- The instance's public `disposed` getter. -/
def RpcInstance.disposed (i : RpcInstance) : Bool := i.disposedFlag

/-- The factory's initial state: `const unsubscribers = []; let _disposed = false;`. -/
def createRpcInstance (s : SocketState) : RpcInstance := ⟨s, [], false, []⟩

/-- The message of the error thrown by `checkDisposed`. -/
def checkDisposedError (interfaceName : String) : String :=
  interfaceName ++ " has been disposed"

/-- One emitted handler-registration method: `checkDisposed();` then
`socket.on(name, listener); unsubscribers.push(() => socket.off(name, listener));`.
Throwing is modelled by `Except.error`. -/
def registerHandler (interfaceName : String) (inst : RpcInstance) (ev : String)
    (lid : Nat) : Except String RpcInstance :=
  if inst.disposedFlag then .error (checkDisposedError interfaceName)
  else .ok ⟨socketOn inst.socketSt ev lid, inst.unsubscribers ++ [(ev, lid)],
            false, inst.invoked⟩

/-- The emitted `dispose()` method: return if already disposed, else set the
flag, invoke every collected unsubscriber, and clear the list. -/
def dispose (inst : RpcInstance) : RpcInstance :=
  if inst.disposedFlag then inst
  else ⟨inst.unsubscribers.foldl (fun s u => socketOff s u.1 u.2) inst.socketSt,
        [], true, inst.invoked ++ inst.unsubscribers⟩

/-- A sequence of handler registrations against an instance (failed
registrations leave the state unchanged, as the thrown error aborts the call). -/
def registerMany (interfaceName : String) (inst : RpcInstance)
    (regs : List (String × Nat)) : RpcInstance :=
  regs.foldl (fun i r =>
    match registerHandler interfaceName i r.1 r.2 with
    | .ok j => j
    | .error _ => i) inst

-- ============================================
-- CONTRACT RESOLVER (interface extraction)
-- ============================================

/-- A function parameter extracted from the interface (name, type text,
optionality), mirroring the generator's FunctionParam. -/
structure FunctionParam where
  name : String
  type : String
  isOptional : Bool
deriving DecidableEq

/-- An extracted function signature, mirroring the generator's
FunctionSignature. -/
structure FunctionSignature where
  name : String
  params : List FunctionParam
  returnType : String
  isVoid : Bool
deriving DecidableEq

/-- One declared interface member: its name, whether its type node is a
function type (with a call signature), and the textual parameter/return data
ts-morph reports for it. -/
structure IfaceProp where
  name : String
  isFunc : Bool
  params : List FunctionParam
  returnType : String
deriving DecidableEq

/-- One interface declaration: its name, the names of the interfaces it
extends (in extends-clause order), and its own members. -/
structure Iface where
  name : String
  bases : List String
  props : List IfaceProp
deriving DecidableEq

/-- The set of interface declarations visible to the project (possibly from
several files; the generator adds all referenced files to its project). -/
abbrev IfaceEnv := List Iface

/-- Symbol resolution of a base-type name to its declaration, modelling
`baseType.getSymbol()?.getDeclarations()`; an unresolvable name yields none
and is skipped by the walk. -/
def lookupIface (env : IfaceEnv) (n : String) : Option Iface :=
  env.find? (fun i => i.name == n)

/-- Names of all interfaces in the environment (termination measure support). -/
def envNames (env : IfaceEnv) : Finset String :=
  (env.map Iface.name).toFinset

/-- The recursive worker of getAllBaseInterfaces. It walks a list of base-type
names: each name is resolved (unresolvable names are skipped); a resolved
declaration is pushed onto the result unconditionally, and its own bases are
walked recursively only if its name has not been visited yet (the cycle /
diamond guard of the source). It returns the collected declarations in visit
order together with the set of names newly added to `visited`. -/
def collectStep (env : IfaceEnv) (bs : List String) (visited : Finset String) :
    List Iface × Finset String :=
  match bs with
  | [] => ([], ∅)
  | b :: rest =>
    match hb : lookupIface env b with
    | none => collectStep env rest visited
    | some bi =>
      if hv : bi.name ∈ visited then
        let q := collectStep env rest visited
        (bi :: q.1, q.2)
      else
        let p := collectStep env bi.bases (insert bi.name visited)
        let q := collectStep env rest (visited ∪ insert bi.name p.2)
        (bi :: (p.1 ++ q.1), insert bi.name p.2 ∪ q.2)
termination_by ((envNames env \ visited).card, bs.length)
decreasing_by
  · exact Prod.Lex.right _ (Nat.lt_succ_self _)
  · exact Prod.Lex.right _ (Nat.lt_succ_self _)
  · apply Prod.Lex.left
    apply Finset.card_lt_card
    constructor
    · intro a ha
      rw [Finset.mem_sdiff] at ha ⊢
      rw [Finset.mem_insert] at ha
      exact ⟨ha.1, fun hav => ha.2 (Or.inr hav)⟩
    · intro hsub
      have hmem : bi.name ∈ envNames env := by
        unfold envNames
        rw [List.mem_toFinset]
        exact List.mem_map_of_mem Iface.name (List.mem_of_find?_eq_some hb)
      have hbiIn : bi.name ∈ envNames env \ visited :=
        Finset.mem_sdiff.mpr ⟨hmem, hv⟩
      have := hsub hbiIn
      rw [Finset.mem_sdiff, Finset.mem_insert] at this
      exact this.2 (Or.inl rfl)
  · apply Prod.Lex.left
    apply Finset.card_lt_card
    constructor
    · intro a ha
      rw [Finset.mem_sdiff] at ha ⊢
      rw [Finset.mem_union] at ha
      exact ⟨ha.1, fun hav => ha.2 (Or.inl hav)⟩
    · intro hsub
      have hmem : bi.name ∈ envNames env := by
        unfold envNames
        rw [List.mem_toFinset]
        exact List.mem_map_of_mem Iface.name (List.mem_of_find?_eq_some hb)
      have hbiIn : bi.name ∈ envNames env \ visited :=
        Finset.mem_sdiff.mpr ⟨hmem, hv⟩
      have := hsub hbiIn
      rw [Finset.mem_sdiff, Finset.mem_union, Finset.mem_insert] at this
      exact this.2 (Or.inr (Or.inl rfl))

/-- Recursive collection of all base interfaces of `iface` (the source's
getAllBaseInterfaces): mark the interface itself visited, then walk its
extends clause. The root interface itself is not part of the result. -/
def getAllBaseInterfaces (env : IfaceEnv) (iface : Iface) : List Iface :=
  (collectStep env iface.bases {iface.name}).1

/-- Character class `[a-zA-Z_$]` of the source's identifier regex. -/
def isIdentStart (c : Char) : Bool :=
  (c ≥ 'a' && c ≤ 'z') || (c ≥ 'A' && c ≤ 'Z') || c == '_' || c == '$'

/-- Character class `[a-zA-Z0-9_$]` of the source's identifier regex. -/
def isIdentCont (c : Char) : Bool :=
  isIdentStart c || (c ≥ '0' && c ≤ '9')

/-- The source's `isValidJavaScriptIdentifier`:
`/^[a-zA-Z_$][a-zA-Z0-9_$]*$/.test(name)`. -/
def isValidJavaScriptIdentifier (name : String) : Bool :=
  match name.data with
  | [] => false
  | c :: cs => isIdentStart c && cs.all isIdentCont

/-- The signature the source builds from a property once all checks pass
(parameters, textual return type, and `isVoid = (returnType === "void")`). -/
def mkSig (p : IfaceProp) : FunctionSignature :=
  ⟨p.name, p.params, p.returnType, p.returnType == "void"⟩

/-- The source's extractSignatureFromProperty: skip a name already processed
(first registration wins), skip a member whose type node is not a function
type with a call signature, skip (with a logged warning) a name that is not a
valid JavaScript identifier; otherwise build the signature. -/
def extractSignatureFromProperty (p : IfaceProp) (processedNames : Finset String) :
    Option FunctionSignature :=
  if p.name ∈ processedNames then none
  else if !p.isFunc then none
  else if !isValidJavaScriptIdentifier p.name then none
  else some (mkSig p)

/-- One step of the registration loop: try to extract the property and on
success push the signature and mark its name processed. -/
def regStep (st : List FunctionSignature × Finset String) (p : IfaceProp) :
    List FunctionSignature × Finset String :=
  match extractSignatureFromProperty p st.2 with
  | none => st
  | some s => (st.1 ++ [s], insert s.name st.2)

/-- Registration of all properties of one interface (the inner forEach of
extractFunctionSignatures). -/
def registerProps (props : List IfaceProp)
    (st : List FunctionSignature × Finset String) :
    List FunctionSignature × Finset String :=
  props.foldl regStep st

/-- The source's extractFunctionSignatures: collect the inheritance chain,
iterate `[...baseInterfaces, interfaceDeclaration]`, and register each
member under its name only if unregistered. -/
def extractFunctionSignatures (env : IfaceEnv) (iface : Iface) :
    List FunctionSignature :=
  ((getAllBaseInterfaces env iface ++ [iface]).foldl
    (fun st i => registerProps i.props st) ([], ∅)).1

/-- Direct-extension relation resolved through the environment: `k` is a
declaration some entry of the extends clause of `i` resolves to. -/
def edgeRel (env : IfaceEnv) (i k : Iface) : Prop :=
  ∃ b ∈ i.bases, lookupIface env b = some k

/-- A property qualifies for registration when it is function-typed and its
name is a valid JavaScript identifier. -/
def qualifies (p : IfaceProp) : Bool :=
  p.isFunc && isValidJavaScriptIdentifier p.name

/-- The names of an interface's own qualifying (function-valued, valid
identifier) members. -/
def validFnNames (i : Iface) : List String :=
  (i.props.filter qualifies).map IfaceProp.name

/-- The names of an interface's own function-valued members, with no
restriction on identifier validity (the notion the specification's
union-of-member-names property quantifies over). -/
def fnMemberNames (i : Iface) : List String :=
  (i.props.filter IfaceProp.isFunc).map IfaceProp.name

-- ============================================
-- TYPE-REFERENCE RESOLVER (addCustomTypeImports)
-- ============================================

/-- A project source file as the import resolver sees it: its basename, the
type names it declares (exported declarations, type aliases and interfaces
merged), and the basenames of the files it directly references via its
import/export declarations (`getReferencedSourceFiles`). -/
structure MFile where
  name : String
  declares : List String
  refs : List String
deriving DecidableEq

/-- Resolution of a referenced file by basename. -/
def lookupFile (env : List MFile) (n : String) : Option MFile :=
  env.find? (fun f => f.name == n)

/-- The fixed primitive/built-in allow-list of addCustomTypeImports. -/
def builtinTypes : List String :=
  ["string", "number", "boolean", "void", "any", "unknown", "object",
   "Array", "Promise", "Error"]

/-- The `string.includes(char)` check of the candidate filter. -/
def strIncludesChar (s : String) (c : Char) : Bool := s.data.contains c

/-- The source's candidate filter: drop allow-listed names and any token still
containing a union bar, a generic bracket or an array bracket. -/
def isCustomCandidate (t : String) : Bool :=
  !(builtinTypes.contains t) && !(strIncludesChar t '|') && !(strIncludesChar t '<')
    && !(strIncludesChar t '[')

/-- Whether a file declares a type name, modelling
`exportedTypes.has(type) || file.getTypeAlias(type) || file.getInterface(type)`. -/
def declaresType (f : MFile) (t : String) : Bool :=
  f.declares.contains t

/-- The loop over the entry file's referenced files: for each file in order,
claim the still-unresolved candidates it declares, and stop once nothing
remains. -/
def resolveInRefs (files : List MFile) (remaining : List String)
    (acc : List (String × List String)) : List (String × List String) :=
  match files with
  | [] => acc
  | f :: rest =>
    if remaining.isEmpty then acc
    else
      resolveInRefs rest (remaining.filter (fun t => !(declaresType f t)))
        (if (remaining.filter (fun t => declaresType f t)).isEmpty then acc
         else acc ++ [(f.name, remaining.filter (fun t => declaresType f t))])

/-- The source's addCustomTypeImports, from the allow-list filter onward
(the upstream extractTypeNames token scan supplies `usedTypes`): returns the
type-only import groups added to the generated file, as
`(moduleBasename, importedNames)` pairs in insertion order. The entry file's
own declarations are checked first; the remaining candidates are searched in
the entry file's directly referenced files; candidates found nowhere are
dropped silently. -/
def addCustomTypeImports (env : List MFile) (entry : MFile)
    (inputFilename : String) (usedTypes : List String) :
    List (String × List String) :=
  if (usedTypes.filter isCustomCandidate).isEmpty then []
  else if ((usedTypes.filter isCustomCandidate).filter
      (fun t => !(declaresType entry t))).isEmpty then
    (if ((usedTypes.filter isCustomCandidate).filter
        (fun t => declaresType entry t)).isEmpty then []
     else [(inputFilename, (usedTypes.filter isCustomCandidate).filter
        (fun t => declaresType entry t))])
  else
    resolveInRefs (entry.refs.filterMap (lookupFile env))
      ((usedTypes.filter isCustomCandidate).filter (fun t => !(declaresType entry t)))
      (if ((usedTypes.filter isCustomCandidate).filter
          (fun t => declaresType entry t)).isEmpty then []
       else [(inputFilename, (usedTypes.filter isCustomCandidate).filter
          (fun t => declaresType entry t))])

/-- Transitive reachability in the import graph (the search space the
specification describes for import resolution): the reflexive-transitive
closure of the direct-reference relation starting at the entry file. -/
def fileRefEdge (env : List MFile) (f g : MFile) : Prop :=
  ∃ r ∈ f.refs, lookupFile env r = some g

-- ============================================
-- BINDING GENERATOR (emitted file text)
-- ============================================

/-- Single-quote character of the emitted JavaScript string literals. -/
def qt : String := "\x27"

/-- Opening brace of the emitted JavaScript code. -/
def lb : String := "\x7b"

/-- Closing brace of the emitted JavaScript code. -/
def rb : String := "\x7d"

/-- Indentation prefix used by the code writer (four spaces per level). -/
def indentStr (n : Nat) : String := String.join (List.replicate n "    ")

/-- Write one line at the given indent level. -/
def wl (ind : Nat) (s : String) : String := indentStr ind ++ s

/-- Generator configuration with all defaults applied (ResolvedConfig). -/
structure ResolvedConfig where
  inputPath : String
  outputDir : String
  packageName : String
  defaultTimeout : Nat
  errorLogger : Option String
deriving DecidableEq

/-- The user-facing configuration (GeneratorConfig) before defaults. -/
structure GeneratorConfig where
  inputPath : String
  outputDir : String
  packageName : String
  defaultTimeout : Option Nat
  errorLogger : Option String
deriving DecidableEq

/-- The source's resolveConfig: spread defaults `defaultTimeout: 5000,
errorLogger: undefined` under the user config. -/
def resolveConfig (userConfig : GeneratorConfig) : ResolvedConfig :=
  { inputPath := userConfig.inputPath
    outputDir := userConfig.outputDir
    packageName := userConfig.packageName
    defaultTimeout := userConfig.defaultTimeout.getD 5000
    errorLogger := userConfig.errorLogger }

/-- The `path.basename(p, path.extname(p))` computation used for the input
module name: final path segment with its last extension stripped. -/
def baseNameNoExt (p : String) : String :=
  let base := (p.splitOn "/").getLastD p
  match base.splitOn "." with
  | [x] => x
  | parts => String.intercalate "." parts.dropLast

/-- Parameter rendering `name?: type` used for declared parameters. -/
def paramDecl (p : FunctionParam) : String :=
  p.name ++ (if p.isOptional then "?" else "") ++ ": " ++ p.type

/-- Comma-joined declared parameter list. -/
def funcParamsStr (ps : List FunctionParam) : String :=
  String.intercalate ", " (ps.map paramDecl)

/-- Comma-joined `name: type` list (listener parameters). -/
def typedParamsStr (ps : List FunctionParam) : String :=
  String.intercalate ", " (ps.map (fun p => p.name ++ ": " ++ p.type))

/-- Comma-joined bare argument names. -/
def handlerParamsStr (ps : List FunctionParam) : String :=
  String.intercalate ", " (ps.map FunctionParam.name)

/-- The emitted RpcError literal
`{ message: v instanceof Error ? v.message : String(v), code: 'INTERNAL_ERROR', data: undefined }`. -/
def rpcErrorExprText (errorVar : String) : String :=
  lb ++ " message: " ++ errorVar ++ " instanceof Error ? " ++ errorVar
    ++ ".message : String(" ++ errorVar ++ "), code: " ++ qt ++ "INTERNAL_ERROR"
    ++ qt ++ ", data: undefined " ++ rb

/-- The handler type annotation used in the Handle interface and the handle
object: `void | RpcError` for void members, `RT | RpcError` otherwise. -/
def handleReturnType (f : FunctionSignature) : String :=
  if f.isVoid then "void | RpcError" else f.returnType ++ " | RpcError"

/-- Lines of the emitted fire-and-forget listener for one void member. -/
def voidListenerLines (ind : Nat) (f : FunctionSignature) : List String :=
  [wl ind ("const listener = async (" ++ typedParamsStr f.params ++ ") => " ++ lb),
   wl (ind + 1) ("try " ++ lb),
   wl (ind + 2) ("const result = await handler(" ++ handlerParamsStr f.params ++ ");"),
   wl (ind + 2) ("if (result && typeof result === " ++ qt ++ "object" ++ qt
     ++ " && " ++ qt ++ "code" ++ qt ++ " in result && " ++ qt ++ "message" ++ qt
     ++ " in result) " ++ lb),
   wl (ind + 3) ("socket.emit(" ++ qt ++ "rpcError" ++ qt ++ ", result);"),
   wl (ind + 2) rb,
   wl (ind + 1) (rb ++ " catch (error) " ++ lb),
   wl (ind + 2) ("console.error(" ++ qt ++ "[" ++ f.name ++ "] Handler error:"
     ++ qt ++ ", error);"),
   wl (ind + 2) ("socket.emit(" ++ qt ++ "rpcError" ++ qt ++ ", "
     ++ rpcErrorExprText "error" ++ ");"),
   wl (ind + 1) rb,
   wl ind (rb ++ ";")]

/-- Lines of the emitted acknowledgment listener for one non-void member. -/
def ackListenerLines (ind : Nat) (f : FunctionSignature) : List String :=
  let callbackType := "(result: " ++ f.returnType ++ " | RpcError) => void"
  let typed := typedParamsStr f.params
  let fullParams :=
    if typed = "" then "callback: " ++ callbackType
    else typed ++ ", callback: " ++ callbackType
  [wl ind ("const listener = async (" ++ fullParams ++ ") => " ++ lb),
   wl (ind + 1) ("try " ++ lb),
   wl (ind + 2) ("const result = await handler(" ++ handlerParamsStr f.params ++ ");"),
   wl (ind + 2) "callback(result);",
   wl (ind + 1) (rb ++ " catch (error) " ++ lb),
   wl (ind + 2) ("console.error(" ++ qt ++ "[" ++ f.name ++ "] Handler error:"
     ++ qt ++ ", error);"),
   wl (ind + 2) ("callback(" ++ rpcErrorExprText "error" ++ ");"),
   wl (ind + 1) rb,
   wl ind (rb ++ ";")]

/-- Lines of one handler-registration method of the emitted handle object. -/
def handleMethodLines (ind : Nat) (f : FunctionSignature) : List String :=
  [wl ind (f.name ++ "(handler: (" ++ funcParamsStr f.params ++ ") => Promise<"
     ++ handleReturnType f ++ ">) " ++ lb),
   wl (ind + 1) "checkDisposed();"]
  ++ (if f.isVoid then voidListenerLines (ind + 1) f else ackListenerLines (ind + 1) f)
  ++ [wl (ind + 1) ("socket.on(" ++ qt ++ f.name ++ qt ++ ", listener);"),
      wl (ind + 1) ("unsubscribers.push(() => socket.off(" ++ qt ++ f.name ++ qt
        ++ ", listener));"),
      wl ind (rb ++ ",")]

/-- Lines of the rpcError registration method of the emitted handle object. -/
def rpcErrorMethodLines (ind : Nat) : List String :=
  [wl ind ("rpcError(handler: (error: RpcError) => void) " ++ lb),
   wl (ind + 1) "checkDisposed();",
   wl (ind + 1) "const listener = (error: RpcError) => handler(error);",
   wl (ind + 1) ("socket.on(" ++ qt ++ "rpcError" ++ qt ++ ", listener);"),
   wl (ind + 1) ("unsubscribers.push(() => socket.off(" ++ qt ++ "rpcError" ++ qt
     ++ ", listener));"),
   wl ind rb]

/-- Lines of one method of the emitted call object (fire-and-forget or
acknowledgment call). `isLast` controls the trailing comma exactly as the
source's index comparison does. -/
def callMethodLines (ind : Nat) (cfg : ResolvedConfig) (f : FunctionSignature)
    (isLast : Bool) : List String :=
  let declared := f.params.map paramDecl
  let allParams :=
    if f.isVoid then declared
    else declared ++ ["timeout: number = " ++ toString cfg.defaultTimeout]
  let paramsString := String.intercalate ", " allParams
  let argsString :=
    if f.params.isEmpty then ""
    else ", " ++ handlerParamsStr f.params
  if f.isVoid then
    [wl ind (f.name ++ "(" ++ paramsString ++ ") " ++ lb),
     wl (ind + 1) ("socket.emit(" ++ qt ++ f.name ++ qt ++ argsString ++ ");"),
     wl ind (rb ++ (if isLast then "" else ","))]
  else
    [wl ind ("async " ++ f.name ++ "(" ++ paramsString ++ "): Promise<"
       ++ f.returnType ++ " | RpcError> " ++ lb),
     wl (ind + 1) ("try " ++ lb),
     wl (ind + 2) ("return await socket.timeout(timeout).emitWithAck(" ++ qt
       ++ f.name ++ qt ++ argsString ++ ");"),
     wl (ind + 1) (rb ++ " catch (err) " ++ lb),
     wl (ind + 2) ("return " ++ rpcErrorExprText "err" ++ ";"),
     wl (ind + 1) rb,
     wl ind (rb ++ (if isLast then "" else ","))]

/-- The factory interface names for a side: (interfaceName, factoryName,
targetSide, capitalized target). -/
def sideNames (side : String) : String × String × String × String :=
  if side = "client" then ("RpcClient", "createRpcClient", "server", "Server")
  else ("RpcServer", "createRpcServer", "client", "Client")

/-- Lines of one documented property inside an emitted interface block. -/
def interfacePropLines (doc nm ty : String) : List String :=
  [wl 1 ("/** " ++ doc ++ " */"),
   wl 1 (nm ++ ": " ++ ty ++ ";")]

/-- The emitted Handle interface (generateFactoryInterface): one
handler-registration property per member this side handles, plus the
rpcError registration property. -/
def handleInterfaceLines (interfaceName targetSide : String)
    (handleFns : List FunctionSignature) : List String :=
  ["/** Handler registration methods - implement these to handle calls from "
     ++ targetSide ++ " */",
   "export interface " ++ interfaceName ++ "Handle " ++ lb]
  ++ (handleFns.flatMap (fun f =>
        interfacePropLines ("Register handler for " ++ qt ++ f.name ++ qt
            ++ " - called by " ++ targetSide)
          f.name
          ("(handler: (" ++ funcParamsStr f.params ++ ") => Promise<"
            ++ handleReturnType f ++ ">) => void")))
  ++ interfacePropLines "Register handler for RPC errors" "rpcError"
       "(handler: (error: RpcError) => void) => void"
  ++ [rb]

/-- The emitted call interface (generateFactoryInterface): one call property
per member the other side declares; non-void members get a trailing optional
timeout parameter and a `Promise<RT | RpcError>` return. -/
def callInterfaceLines (interfaceName targetSide targetCap : String)
    (callFns : List FunctionSignature) : List String :=
  ["/** Methods to call " ++ targetSide ++ " */",
   "export interface " ++ interfaceName ++ targetCap ++ " " ++ lb]
  ++ (callFns.flatMap (fun f =>
        let funcParams := funcParamsStr f.params
        let timeoutParam :=
          if f.isVoid then ""
          else if funcParams = "" then "timeout?: number"
          else ", timeout?: number"
        let returnType :=
          if f.isVoid then "void" else "Promise<" ++ f.returnType ++ " | RpcError>"
        interfacePropLines ("Call " ++ targetSide ++ qt ++ "s " ++ qt ++ f.name
            ++ qt ++ " method")
          f.name
          ("(" ++ funcParams ++ timeoutParam ++ ") => " ++ returnType)))
  ++ [rb]

/-- The emitted main interface with handle, target-side, socket and disposed
properties plus dispose(). -/
def mainInterfaceLines (interfaceName targetSide targetCap side : String) :
    List String :=
  ["/** " ++ (if side = "client" then "Client" else "Server")
     ++ " RPC interface with ergonomic API. */",
   "export interface " ++ interfaceName ++ " " ++ lb]
  ++ interfacePropLines ("Register handlers for calls from " ++ targetSide)
       "readonly handle" (interfaceName ++ "Handle")
  ++ interfacePropLines ("Call " ++ targetSide ++ " methods")
       ("readonly " ++ targetSide) (interfaceName ++ targetCap)
  ++ interfacePropLines "The underlying socket instance" "readonly socket" "Socket"
  ++ interfacePropLines "Whether this instance has been disposed"
       "readonly disposed" "boolean"
  ++ [wl 1 "/** Cleanup all registered handlers. */",
      wl 1 "dispose(): void;",
      rb]

/-- The doc-comment usage line for the first call function (the conditional
template expression of the factory JSDoc). -/
def factoryDocCallSample (side targetSide : String)
    (callFns : List FunctionSignature) : String :=
  match callFns with
  | [] => "// ..."
  | f :: _ =>
    let dots := String.intercalate ", " (f.params.map (fun _ => "..."))
    if f.isVoid then
      side ++ "." ++ targetSide ++ "." ++ f.name ++ "(" ++ dots ++ ");"
    else
      "const result = await " ++ side ++ "." ++ targetSide ++ "." ++ f.name
        ++ "(" ++ dots ++ ");"

/-- The factory JSDoc description text (generateFactoryFunction's docs
template, including the fallbacks for an empty member list). -/
def factoryDocLines (side targetSide factoryName : String)
    (callFns handleFns : List FunctionSignature) : List String :=
  let handleName := match handleFns with | [] => "eventName" | f :: _ => f.name
  let handleParams :=
    match handleFns with
    | [] => "data"
    | f :: _ =>
      let ps := handlerParamsStr f.params
      if ps = "" then "data" else ps
  ["/**",
   " * Create a " ++ side ++ " RPC instance.",
   " *",
   " * Usage:",
   " * ```typescript",
   " * const " ++ side ++ " = " ++ factoryName ++ "(socket);",
   " *",
   " * // Register handlers for calls from " ++ targetSide,
   " * " ++ side ++ ".handle." ++ handleName ++ "(async (" ++ handleParams
     ++ ") => " ++ lb,
   " *   // handle event",
   " * " ++ rb ++ ");",
   " *",
   " * // Call " ++ targetSide ++ " methods",
   " * " ++ factoryDocCallSample side targetSide callFns,
   " *",
   " * // Cleanup when done",
   " * " ++ side ++ ".dispose();",
   " * ```",
   " * @param socket The socket instance",
   " * @returns " ++ (sideNames side).1 ++ " instance with .handle, ."
     ++ targetSide ++ ", and .dispose()",
   " */"]

/-- The complete emitted factory function (generateFactoryFunction): disposal
flag and unsubscriber list, the handle object with one inlined listener per
handled member plus the rpcError registration, the call object with one
method per callable member, and the returned instance object with its
idempotent dispose. -/
def factoryFunctionLines (side : String) (callFns handleFns : List FunctionSignature)
    (cfg : ResolvedConfig) : List String :=
  let names := sideNames side
  let interfaceName := names.1
  let factoryName := names.2.1
  let targetSide := names.2.2.1
  let targetCap := names.2.2.2
  ["", "// === FACTORY FUNCTION ==="]
  ++ factoryDocLines side targetSide factoryName callFns handleFns
  ++ ["export function " ++ factoryName ++ "(socket: Socket): " ++ interfaceName
       ++ " " ++ lb,
      wl 1 "const unsubscribers: Array<() => void> = [];",
      wl 1 "let _disposed = false;",
      "",
      wl 1 ("const checkDisposed = () => " ++ lb),
      wl 2 ("if (_disposed) throw new Error(" ++ qt ++ interfaceName
        ++ " has been disposed" ++ qt ++ ");"),
      wl 1 (rb ++ ";"),
      "",
      wl 1 ("const handle: " ++ interfaceName ++ "Handle = " ++ lb)]
  ++ (handleFns.flatMap (fun f => handleMethodLines 2 f))
  ++ rpcErrorMethodLines 2
  ++ [wl 1 (rb ++ ";"),
      "",
      wl 1 ("const " ++ targetSide ++ ": " ++ interfaceName ++ targetCap
        ++ " = " ++ lb)]
  ++ ((callFns.enum.map (fun fi =>
        callMethodLines 2 cfg fi.2 (fi.1 + 1 == callFns.length))).flatten)
  ++ [wl 1 (rb ++ ";"),
      "",
      wl 1 ("return " ++ lb),
      wl 2 "handle,",
      wl 2 (targetSide ++ ","),
      wl 2 ("get socket() " ++ lb ++ " return socket; " ++ rb ++ ","),
      wl 2 ("get disposed() " ++ lb ++ " return _disposed; " ++ rb ++ ","),
      wl 2 ("dispose() " ++ lb),
      wl 3 "if (_disposed) return;",
      wl 3 "_disposed = true;",
      wl 3 "unsubscribers.forEach(fn => fn());",
      wl 3 "unsubscribers.length = 0;",
      wl 2 rb,
      wl 1 rb ++ ";",
      rb]

/-- Rendering of one emitted type-only import declaration. -/
def importDeclLine (moduleSpecifier : String) (namedImports : List String) : String :=
  "import type " ++ lb ++ " " ++ String.intercalate ", " namedImports ++ " " ++ rb
    ++ " from " ++ qt ++ moduleSpecifier ++ qt ++ ";"

/-- The header comment prepended to a generated side file
(generateSideFile's insertText block). -/
def sideFileHeaderLines (side targetSide inputFilename inputPath : String) :
    List String :=
  ["/**",
   " * DO NOT EDIT THIS FILE - IT IS AUTO-GENERATED",
   " *",
   " * Auto-generated " ++ side ++ " RPC from " ++ inputFilename ++ ".ts",
   " *",
   " * Usage:",
   " *   const " ++ side ++ " = create" ++ (sideNames side).1 ++ "(socket);",
   " *   " ++ side ++ ".handle.eventName(async (data) => " ++ lb ++ " ... "
     ++ rb ++ ");",
   " *   " ++ side ++ "." ++ targetSide ++ ".methodName(args);",
   " *   " ++ side ++ ".dispose();",
   " *",
   " * To regenerate: bunx socketrpc-gen " ++ inputPath,
   " */",
   ""]

/-- The source's generateSideFile as the full text of client.generated.ts or
server.generated.ts: header, Socket and RpcError imports, the resolved custom
type imports, the three emitted interfaces, and the factory function. The
`usedTypes` argument carries the type-name tokens the upstream
extractTypeNames scan produced from both signature lists. -/
def sideFileText (side : String) (clientFns serverFns : List FunctionSignature)
    (cfg : ResolvedConfig) (fenv : List MFile) (entry : MFile)
    (usedTypes : List String) : String :=
  let socketModule := if side = "client" then "socket.io-client" else "socket.io"
  let callFns := if side = "client" then clientFns else serverFns
  let handleFns := if side = "client" then serverFns else clientFns
  let names := sideNames side
  let interfaceName := names.1
  let targetSide := names.2.2.1
  let targetCap := names.2.2.2
  let inputFilename := baseNameNoExt cfg.inputPath
  let customImports :=
    (addCustomTypeImports fenv entry inputFilename usedTypes).map
      (fun g => importDeclLine ("./" ++ g.1) g.2)
  let lines :=
    sideFileHeaderLines side targetSide inputFilename cfg.inputPath
    ++ [importDeclLine socketModule ["Socket"],
        importDeclLine "./types.generated" ["RpcError"]]
    ++ customImports
    ++ ["", "// === " ++ String.toUpper interfaceName ++ " INTERFACE ==="]
    ++ handleInterfaceLines interfaceName targetSide handleFns
    ++ callInterfaceLines interfaceName targetSide targetCap callFns
    ++ mainInterfaceLines interfaceName targetSide targetCap side
    ++ factoryFunctionLines side callFns handleFns cfg
  String.intercalate "\n" lines

/-- The source's generateTypesFile as the full text of types.generated.ts:
header, UnsubscribeFunction alias, RpcError interface, and the isRpcError
type guard whose runtime semantics `isRpcError` models. -/
def typesFileText (cfg : ResolvedConfig) : String :=
  String.intercalate "\n"
    ["/**",
     " * DO NOT EDIT THIS FILE - IT IS AUTO-GENERATED",
     " *",
     " * Auto-generated types for the RPC package",
     " *",
     " * To regenerate this file, run:",
     " * bunx socketrpc-gen " ++ cfg.inputPath,
     " */",
     "",
     "/** Function to unsubscribe from an event listener. Call this to clean up the listener. */",
     "export type UnsubscribeFunction = () => void;",
     "",
     "/** Represents an error that occurred during an RPC call. */",
     "export interface RpcError " ++ lb,
     wl 1 "/** The error message. */",
     wl 1 "message: string;",
     wl 1 "/** The error code. */",
     wl 1 "code: string;",
     wl 1 "/** The error data. */",
     wl 1 "data: any;",
     rb,
     "",
     "/** Type guard to check if an object is an RpcError. */",
     "export function isRpcError(obj: any): obj is RpcError " ++ lb,
     wl 1 ("return !!obj && typeof (obj as RpcError).message === " ++ qt
       ++ "string" ++ qt ++ " && typeof (obj as RpcError).code === " ++ qt
       ++ "string" ++ qt ++ ";"),
     rb]

/-- The source's generatePackageJson serialised with two-space indentation. -/
def packageJsonText (cfg : ResolvedConfig) : String :=
  String.intercalate "\n"
    [lb,
     "  \"name\": \"" ++ cfg.packageName ++ "\",",
     "  \"version\": \"1.0.0\",",
     "  \"description\": \"Auto-generated RPC package for Socket.IO\",",
     "  \"type\": \"module\",",
     "  \"scripts\": " ++ lb,
     "    \"build\": \"tsc\",",
     "    \"dev\": \"tsc --watch\"",
     "  " ++ rb ++ ",",
     "  \"dependencies\": " ++ lb,
     "    \"socket.io\": \"^4.8.1\",",
     "    \"socket.io-client\": \"^4.8.1\"",
     "  " ++ rb ++ ",",
     "  \"devDependencies\": " ++ lb,
     "    \"@types/node\": \"^20.0.0\",",
     "    \"typescript\": \"^5.0.0\"",
     "  " ++ rb ++ ",",
     "  \"peerDependencies\": " ++ lb,
     "    \"socket.io\": \"^4.0.0\",",
     "    \"socket.io-client\": \"^4.0.0\"",
     "  " ++ rb,
     rb]

/-- The source's generateTsConfig serialised with two-space indentation. -/
def tsConfigText : String :=
  String.intercalate "\n"
    [lb,
     "  \"compilerOptions\": " ++ lb,
     "    \"target\": \"ES2020\",",
     "    \"module\": \"ESNext\",",
     "    \"lib\": [\"ES2020\"],",
     "    \"moduleResolution\": \"node\",",
     "    \"esModuleInterop\": true,",
     "    \"forceConsistentCasingInFileNames\": true,",
     "    \"strict\": true,",
     "    \"skipLibCheck\": true,",
     "    \"declaration\": true,",
     "    \"declarationMap\": true,",
     "    \"sourceMap\": true,",
     "    \"outDir\": \"./dist\",",
     "    \"rootDir\": \"./\",",
     "    \"composite\": true",
     "  " ++ rb ++ ",",
     "  \"include\": [\"**/*.ts\"],",
     "  \"exclude\": [\"node_modules\", \"dist\"]",
     rb]

-- ============================================
-- FILE-SYSTEM MODEL AND MAIN GENERATOR
-- ============================================

/-- The output directory as a mapping from path to file contents; the most
recent write of a path shadows older entries. -/
abbrev FsState := List (String × String)

/-- Model of `fs.existsSync`. -/
def fsExists (s : FsState) (p : String) : Bool :=
  (s.lookup p).isSome

/-- Model of `fs.writeFileSync` (and of a project save with overwrite). -/
def fsWrite (s : FsState) (p c : String) : FsState :=
  (p, c) :: s.filter (fun e => !(e.1 == p))

/-- Model of `path.join(dir, file)`. -/
def pathJoin (d f : String) : String := d ++ "/" ++ f

/-- The source's ensurePackageStructure: write package.json and tsconfig.json
only when the respective file does not already exist. -/
def ensurePackageStructure (s : FsState) (cfg : ResolvedConfig) : FsState :=
  let pkgPath := pathJoin cfg.outputDir "package.json"
  let s1 := if fsExists s pkgPath then s else fsWrite s pkgPath (packageJsonText cfg)
  let tsPath := pathJoin cfg.outputDir "tsconfig.json"
  if fsExists s1 tsPath then s1 else fsWrite s1 tsPath tsConfigText

/-- The source's generateRpcPackage, from the extracted signatures onward:
scaffold the package structure, then always (over)write the three generated
modules, whose contents are pure functions of the extracted signatures, the
configuration and the input file's import environment. -/
def generateRpcPackage (s : FsState) (cfg : ResolvedConfig)
    (clientFns serverFns : List FunctionSignature) (fenv : List MFile)
    (entry : MFile) (usedTypes : List String) : FsState :=
  let s1 := ensurePackageStructure s cfg
  let s2 := fsWrite s1 (pathJoin cfg.outputDir "types.generated.ts")
    (typesFileText cfg)
  let s3 := fsWrite s2 (pathJoin cfg.outputDir "client.generated.ts")
    (sideFileText "client" clientFns serverFns cfg fenv entry usedTypes)
  fsWrite s3 (pathJoin cfg.outputDir "server.generated.ts")
    (sideFileText "server" clientFns serverFns cfg fenv entry usedTypes)

-- ============================================
-- CONCRETE TEST FIXTURES
-- ============================================

/-- Fixture ancestor contract: `interface Base` declaring `ping: () => string`. -/
def baseFix : Iface := ⟨"Base", [], [⟨"ping", true, [], "string"⟩]⟩

/-- Fixture descendant contract: `interface Greeter extends Base` redeclaring
`ping: () => number`. -/
def greeterFix : Iface := ⟨"Greeter", ["Base"], [⟨"ping", true, [], "number"⟩]⟩

/-- Fixture environment for the ancestor-wins scenario. -/
def c1EnvFix : IfaceEnv := [greeterFix, baseFix]

/-- Fixture contract whose single function-valued member has a name that is
not a valid JavaScript identifier. -/
def weirdFix : Iface := ⟨"Weird", [], [⟨"foo-bar", true, [], "void"⟩]⟩

/-- Fixture environment for the invalid-identifier scenario. -/
def c2EnvFix : IfaceEnv := [weirdFix]

/-- Fixture file declaring type T, two import hops from the entry file. -/
def fileBFix : MFile := ⟨"b", ["T"], []⟩

/-- Fixture file imported by the entry file, importing fileBFix, declaring
nothing. -/
def fileAFix : MFile := ⟨"a", [], ["b"]⟩

/-- Fixture entry file importing only fileAFix. -/
def entryFix : MFile := ⟨"entry", [], ["a"]⟩

/-- Fixture import environment with a two-hop reference chain. -/
def c7EnvFix : List MFile := [entryFix, fileAFix, fileBFix]

-- ============================================
-- THEOREMS
-- ============================================

-- Basic facts about symbol lookup.

theorem lookupIface_mem {env : IfaceEnv} {n : String} {i : Iface}
    (h : lookupIface env n = some i) : i ∈ env :=
  List.mem_of_find?_eq_some h

theorem lookupIface_name {env : IfaceEnv} {n : String} {i : Iface}
    (h : lookupIface env n = some i) : i.name = n := by
  have := List.find?_some h
  simpa using this

theorem lookupIface_self {env : IfaceEnv} {n : String} {i : Iface}
    (h : lookupIface env n = some i) : lookupIface env i.name = some i := by
  rw [lookupIface_name h]; exact h

theorem lookupIface_det {env : IfaceEnv} {n : String} {i j : Iface}
    (hi : lookupIface env n = some i) (hj : lookupIface env n = some j) :
    i = j := by
  rw [hi] at hj; exact Option.some.inj hj

-- Helper lemmas about the JS value model.

theorem typeofJs_eq_string_iff (u : JsValue) :
    (typeofJs u == "string") = true ↔ ∃ s, u = JsValue.vStr s := by
  cases u <;> simp [typeofJs]

theorem lookup_isSome_of_lookup_eq_vStr {fields : List (String × JsValue)}
    {f : String} {s : String} (h : List.lookup f fields = some (JsValue.vStr s)) :
    hasField (JsValue.vObj fields) f = true := by
  induction fields with
  | nil => simp [List.lookup] at h
  | cons e rest ih =>
    rw [List.lookup] at h
    by_cases he : f = e.1
    · simp [hasField, he]
    · have hfe : (f == e.1) = false := by simpa using he
      rw [hfe] at h
      have := ih h
      simp only [hasField, List.any_cons, Bool.or_eq_true] at this ⊢
      exact Or.inr this

theorem getField_vObj_eq_vStr_iff {fields : List (String × JsValue)} {f s : String} :
    getField (JsValue.vObj fields) f = JsValue.vStr s ↔
      List.lookup f fields = some (JsValue.vStr s) := by
  rw [getField]
  cases h : List.lookup f fields with
  | none => simp
  | some u => simp

theorem isRpcError_shape {v : JsValue} (h : isRpcError v = true) :
    errorShapeCheck v = true := by
  rw [isRpcError] at h
  simp only [Bool.and_eq_true] at h
  obtain ⟨⟨ht, hm⟩, hc⟩ := h
  cases v with
  | vObj fields =>
    obtain ⟨sm, hsm⟩ := (typeofJs_eq_string_iff _).mp hm
    obtain ⟨sc, hsc⟩ := (typeofJs_eq_string_iff _).mp hc
    have hm2 := getField_vObj_eq_vStr_iff.mp hsm
    have hc2 := getField_vObj_eq_vStr_iff.mp hsc
    rw [errorShapeCheck]
    rw [lookup_isSome_of_lookup_eq_vStr hm2, lookup_isSome_of_lookup_eq_vStr hc2]
    simp [truthy, typeofJs]
  | vErrObj m =>
    exfalso
    obtain ⟨sc, hsc⟩ := (typeofJs_eq_string_iff _).mp hc
    simp [getField] at hsc
  | vUndefined => simp [truthy] at ht
  | vNull => simp [truthy] at ht
  | vBool b =>
    exfalso
    obtain ⟨sm, hsm⟩ := (typeofJs_eq_string_iff _).mp hm
    simp [getField] at hsm
  | vNum n =>
    exfalso
    obtain ⟨sm, hsm⟩ := (typeofJs_eq_string_iff _).mp hm
    simp [getField] at hsm
  | vStr s =>
    exfalso
    obtain ⟨sm, hsm⟩ := (typeofJs_eq_string_iff _).mp hm
    simp [getField] at hsm

theorem isRpcError_rpcErrorOfCaught (e : JsValue) :
    isRpcError (rpcErrorOfCaught e) = true := by
  simp [isRpcError, rpcErrorOfCaught, getField, truthy, typeofJs, List.lookup]

/-- C3: for every extracted signature, the isVoid flag is true if and only if
the textual return-type expression is exactly the no-value keyword "void";
any other return-type text (such as "undefined", "Promise<void>" or
"void | undefined") yields isVoid = false. -/
theorem c3_isVoid_iff_void_text (p : IfaceProp) (processed : Finset String)
    (s : FunctionSignature)
    (h : extractSignatureFromProperty p processed = some s) :
    (s.isVoid = true ↔ s.returnType = "void") ∧
    (s.returnType ≠ "void" → s.isVoid = false) := by
  rw [extractSignatureFromProperty] at h
  split at h
  · exact absurd h (by simp)
  · split at h
    · exact absurd h (by simp)
    · split at h
      · exact absurd h (by simp)
      · have hs : s = mkSig p := by
          exact (Option.some.inj h).symm
        subst hs
        constructor
        · rw [mkSig]
          simp
        · intro hne
          rw [mkSig]
          simpa using hne

/-- Witness for C3 at the concrete member `ping: () => Promise<void>`. -/
theorem c3_witness :
    extractSignatureFromProperty ⟨"ping", true, [], "Promise<void>"⟩ ∅ =
      some ⟨"ping", [], "Promise<void>", false⟩ ∧
    ((⟨"ping", [], "Promise<void>", false⟩ : FunctionSignature).isVoid = true ↔
      (⟨"ping", [], "Promise<void>", false⟩ : FunctionSignature).returnType = "void") := by
  constructor
  · decide
  · exact (c3_isVoid_iff_void_text ⟨"ping", true, [], "Promise<void>"⟩ ∅
      ⟨"ping", [], "Promise<void>", false⟩ (by decide)).1

/-- C4: a non-void generated call never raises: a rejection of the
acknowledgment (timeout or transport failure) and a remote handler that
raises both make the call resolve with the RpcError object whose code is
INTERNAL_ERROR and whose message is the raised condition's message text (or
its string conversion when the condition is not an Error instance). -/
theorem c4_nonvoid_call_resolves_with_error_value (e : JsValue) :
    nonVoidCallResult (AckOutcome.rejected e) = rpcErrorOfCaught e ∧
    nonVoidCallResult (AckOutcome.acked (nonVoidHandlerAck (Except.error e))) =
      rpcErrorOfCaught e ∧
    getField (rpcErrorOfCaught e) "code" = JsValue.vStr "INTERNAL_ERROR" ∧
    getField (rpcErrorOfCaught e) "message" = JsValue.vStr (caughtMessage e) ∧
    (∀ m, e = JsValue.vErrObj m → caughtMessage e = m) ∧
    ((∀ m, e ≠ JsValue.vErrObj m) → caughtMessage e = jsToString e) ∧
    isRpcError (rpcErrorOfCaught e) = true := by
  refine ⟨rfl, rfl, ?_, ?_, ?_, ?_, isRpcError_rpcErrorOfCaught e⟩
  · simp [rpcErrorOfCaught, getField, List.lookup]
  · simp [rpcErrorOfCaught, getField, List.lookup]
  · intro m hm
    subst hm
    rfl
  · intro hne
    cases e with
    | vErrObj m => exact absurd rfl (hne m)
    | vUndefined => rfl
    | vNull => rfl
    | vBool b => rfl
    | vNum n => rfl
    | vStr s => rfl
    | vObj fields => rfl

/-- C5: the generated void-member listener never re-raises: a raising user
handler produces exactly one rpcError event carrying an ErrorValue, and a
resolved value matching the ErrorValue shape is also published on the same
channel rather than discarded. -/
theorem c5_void_handler_failure_notification :
    (∀ e : JsValue,
      voidHandlerEmits (Except.error e) = [("rpcError", rpcErrorOfCaught e)] ∧
      (voidHandlerEmits (Except.error e)).length = 1 ∧
      isRpcError (rpcErrorOfCaught e) = true) ∧
    (∀ v : JsValue, isRpcError v = true →
      voidHandlerEmits (Except.ok v) = [("rpcError", v)]) := by
  constructor
  · intro e
    exact ⟨rfl, rfl, isRpcError_rpcErrorOfCaught e⟩
  · intro v hv
    simp [voidHandlerEmits, isRpcError_shape hv]

/-- Witness for C5: a raising handler with a concrete Error condition, and a
resolved business-error value with string message and code fields. -/
theorem c5_witness :
    voidHandlerEmits (Except.error (JsValue.vErrObj "boom")) =
      [("rpcError", rpcErrorOfCaught (JsValue.vErrObj "boom"))] ∧
    voidHandlerEmits (Except.ok (JsValue.vObj
        [("message", JsValue.vStr "declined"), ("code", JsValue.vStr "BIZ")])) =
      [("rpcError", JsValue.vObj
        [("message", JsValue.vStr "declined"), ("code", JsValue.vStr "BIZ")])] := by
  constructor
  · exact (c5_void_handler_failure_notification.1 (JsValue.vErrObj "boom")).1
  · exact c5_void_handler_failure_notification.2 _ (by
      simp [isRpcError, truthy, getField, List.lookup, typeofJs])

/-- C10: the emitted isRpcError guard returns true exactly when the input is
truthy and its message and code fields are strings; the data field is never
inspected, so a truthy business payload with string message and code fields
is classified as an RpcError, while an error object missing the code field
is not. -/
theorem c10_isRpcError_characterisation :
    (∀ v : JsValue, isRpcError v = true ↔
      (truthy v = true ∧ (∃ s, getField v "message" = JsValue.vStr s) ∧
        (∃ s, getField v "code" = JsValue.vStr s))) ∧
    (∀ fields d1 d2,
      isRpcError (JsValue.vObj (fields ++ [("data", d1)])) =
        isRpcError (JsValue.vObj (fields ++ [("data", d2)]))) ∧
    isRpcError (JsValue.vObj [("message", JsValue.vStr "paid"),
      ("code", JsValue.vStr "OK200"), ("data", JsValue.vNum 7)]) = true ∧
    isRpcError (JsValue.vObj [("message", JsValue.vStr "broken")]) = false := by
  refine ⟨?_, ?_, ?_, ?_⟩
  · intro v
    rw [isRpcError]
    simp only [Bool.and_eq_true]
    rw [typeofJs_eq_string_iff, typeofJs_eq_string_iff]
    tauto
  · intro fields d1 d2
    have hl : ∀ (g : String) (d : JsValue), g ≠ "data" →
        List.lookup g (fields ++ [("data", d)]) = List.lookup g fields := by
      intro g d hg
      induction fields with
      | nil =>
        have hgf : (g == "data") = false := by simpa using hg
        simp [List.lookup, hgf]
      | cons e rest ih =>
        rw [List.cons_append, List.lookup, List.lookup]
        cases hge : g == e.1 with
        | true => rfl
        | false => exact ih
    rw [isRpcError, isRpcError]
    rw [getField, getField, getField, getField]
    rw [hl "message" d1 (by decide), hl "message" d2 (by decide),
        hl "code" d1 (by decide), hl "code" d2 (by decide)]
    simp [truthy]
  · decide
  · decide

/-- Witness for C10: the characterisation applied to a concrete truthy
payload with string message and code fields. -/
theorem c10_witness :
    isRpcError (JsValue.vObj [("message", JsValue.vStr "hello"),
      ("code", JsValue.vStr "X1")]) = true := by
  refine (c10_isRpcError_characterisation.1 _).mpr ?_
  refine ⟨by decide, ⟨"hello", ?_⟩, ⟨"X1", ?_⟩⟩
  · simp [getField, List.lookup]
  · simp [getField, List.lookup]

-- Lifecycle helper: the state reached after a sequence of successful
-- registrations on a fresh factory instance.

theorem count_eq_one_of_mem_beq {α} [BEq α] [LawfulBEq α] {a : α} {l : List α}
    (d : l.Nodup) (h : a ∈ l) : l.count a = 1 := by
  induction l with
  | nil => simp at h
  | cons x xs ih =>
    rw [List.count_cons]
    rcases List.mem_cons.mp h with rfl | hmem
    · have h0 : xs.count a = 0 := by
        rw [List.count_eq_zero]
        exact (List.nodup_cons.mp d).1
      simp [h0]
    · have hne : (x == a) = false := by
        have hx : x ≠ a := fun he => (List.nodup_cons.mp d).1 (he ▸ hmem)
        simpa using hx
      rw [ih (List.nodup_cons.mp d).2 hmem]
      simp [hne]

theorem registerMany_not_disposed (iname : String) (inst : RpcInstance)
    (regs : List (String × Nat)) (h : inst.disposedFlag = false) :
    registerMany iname inst regs =
      ⟨regs.foldl (fun s r => socketOn s r.1 r.2) inst.socketSt,
       inst.unsubscribers ++ regs, false, inst.invoked⟩ := by
  induction regs generalizing inst with
  | nil =>
    simp only [registerMany, List.foldl_nil, List.append_nil]
    cases inst with
    | mk a b c d =>
      simp only at h
      rw [h]
  | cons r rest ih =>
    simp only [registerMany, List.foldl_cons] at ih ⊢
    rw [registerHandler, if_neg (by rw [h]; exact Bool.false_ne_true)]
    rw [ih _ rfl]
    simp

/-- C6: for an instance built by the grouped factory and any sequence of
handler registrations, dispose is idempotent, the disposed getter reports
true afterwards, the invocation log after the first dispose is exactly the
collected unregistration list (each collected unregistration invoked exactly
once when the collected closures are distinct), and any later registration
attempt fails with the has-been-disposed error. -/
theorem c6_dispose_idempotent_teardown (iname : String) (s : SocketState)
    (regs : List (String × Nat)) :
    dispose (dispose (registerMany iname (createRpcInstance s) regs)) =
      dispose (registerMany iname (createRpcInstance s) regs) ∧
    (dispose (registerMany iname (createRpcInstance s) regs)).disposed = true ∧
    (dispose (registerMany iname (createRpcInstance s) regs)).invoked = regs ∧
    (regs.Nodup → ∀ u ∈ regs,
      ((dispose (registerMany iname (createRpcInstance s) regs)).invoked.count u)
        = 1) ∧
    (∀ ev lid,
      registerHandler iname (dispose (registerMany iname (createRpcInstance s) regs))
        ev lid = Except.error (checkDisposedError iname)) := by
  have hreg : registerMany iname (createRpcInstance s) regs =
      ⟨regs.foldl (fun st r => socketOn st r.1 r.2) s, regs, false, []⟩ := by
    have := registerMany_not_disposed iname (createRpcInstance s) regs rfl
    simpa [createRpcInstance] using this
  rw [hreg]
  have hdisp : dispose ⟨regs.foldl (fun st r => socketOn st r.1 r.2) s, regs,
      false, []⟩ =
      ⟨regs.foldl (fun st u => socketOff st u.1 u.2)
          (regs.foldl (fun st r => socketOn st r.1 r.2) s), [], true, regs⟩ := by
    rw [dispose]
    simp
  rw [hdisp]
  refine ⟨?_, rfl, rfl, ?_, ?_⟩
  · rw [dispose, if_pos rfl]
  · intro hnd u hu
    simp only [RpcInstance.invoked]
    exact count_eq_one_of_mem_beq hnd hu
  · intro ev lid
    rw [registerHandler, if_pos rfl]

/-- Witness for C6 at a concrete socket and two distinct registrations,
including the exactly-once count discharged from the distinctness hypothesis. -/
theorem c6_witness :
    (dispose (dispose (registerMany "RpcClient" (createRpcInstance ⟨[]⟩)
        [("notify", 0), ("log", 1)])) =
      dispose (registerMany "RpcClient" (createRpcInstance ⟨[]⟩)
        [("notify", 0), ("log", 1)])) ∧
    ((dispose (registerMany "RpcClient" (createRpcInstance ⟨[]⟩)
        [("notify", 0), ("log", 1)])).invoked.count ("notify", 0) = 1) ∧
    (registerHandler "RpcClient" (dispose (registerMany "RpcClient"
        (createRpcInstance ⟨[]⟩) [("notify", 0), ("log", 1)])) "ping" 2 =
      Except.error (checkDisposedError "RpcClient")) := by
  have h := c6_dispose_idempotent_teardown "RpcClient" ⟨[]⟩
    [("notify", 0), ("log", 1)]
  exact ⟨h.1, h.2.2.2.1 (by decide) ("notify", 0) (by decide), h.2.2.2.2 "ping" 2⟩

-- File-system lemmas for the generation pipeline.

theorem pathJoin_inj {d x y : String} (h : x ≠ y) : pathJoin d x ≠ pathJoin d y := by
  intro he
  apply h
  have h1 : (pathJoin d x).data = (d ++ "/").data ++ x.data := by
    rw [pathJoin, String.data_append, String.data_append, List.append_assoc]
  have h2 : (pathJoin d y).data = (d ++ "/").data ++ y.data := by
    rw [pathJoin, String.data_append, String.data_append, List.append_assoc]
  have hdata : (d ++ "/").data ++ x.data = (d ++ "/").data ++ y.data := by
    rw [← h1, ← h2, he]
  have hxy := List.append_cancel_left hdata
  cases x
  cases y
  simp only at hxy
  rw [hxy]

theorem lookup_fsWrite_self (s : FsState) (p c : String) :
    (fsWrite s p c).lookup p = some c := by
  rw [fsWrite, List.lookup]
  simp

theorem lookup_filter_ne {s : FsState} {p q : String} (h : q ≠ p) :
    List.lookup q (s.filter (fun e => !(e.1 == p))) = List.lookup q s := by
  induction s with
  | nil => rfl
  | cons e rest ih =>
    rw [List.filter_cons]
    by_cases hep : e.1 = p
    · have hcond : (!(e.1 == p)) = false := by simp [hep]
      rw [hcond]
      simp only [Bool.false_eq_true, if_false]
      rw [List.lookup]
      have hne : (q == e.1) = false := by
        simp only [beq_eq_false_iff_ne, ne_eq]
        rw [hep]
        exact h
      rw [hne, ih]
    · have hcond : (!(e.1 == p)) = true := by simp [hep]
      rw [hcond]
      simp only [if_true]
      rw [List.lookup, List.lookup]
      cases hqe : q == e.1 with
      | true => rfl
      | false => exact ih

theorem lookup_fsWrite_other (s : FsState) (p c q : String) (h : q ≠ p) :
    (fsWrite s p c).lookup q = s.lookup q := by
  rw [fsWrite, List.lookup]
  have hf : (q == p) = false := by simpa using h
  rw [hf]
  exact lookup_filter_ne h

theorem fsExists_eq_lookup_isSome (s : FsState) (p : String) :
    fsExists s p = (s.lookup p).isSome := rfl

theorem genPaths_distinct (d : String) :
    pathJoin d "package.json" ≠ pathJoin d "tsconfig.json" ∧
    pathJoin d "package.json" ≠ pathJoin d "types.generated.ts" ∧
    pathJoin d "package.json" ≠ pathJoin d "client.generated.ts" ∧
    pathJoin d "package.json" ≠ pathJoin d "server.generated.ts" ∧
    pathJoin d "tsconfig.json" ≠ pathJoin d "types.generated.ts" ∧
    pathJoin d "tsconfig.json" ≠ pathJoin d "client.generated.ts" ∧
    pathJoin d "tsconfig.json" ≠ pathJoin d "server.generated.ts" ∧
    pathJoin d "types.generated.ts" ≠ pathJoin d "client.generated.ts" ∧
    pathJoin d "types.generated.ts" ≠ pathJoin d "server.generated.ts" ∧
    pathJoin d "client.generated.ts" ≠ pathJoin d "server.generated.ts" :=
  ⟨pathJoin_inj (by decide), pathJoin_inj (by decide), pathJoin_inj (by decide),
   pathJoin_inj (by decide), pathJoin_inj (by decide), pathJoin_inj (by decide),
   pathJoin_inj (by decide), pathJoin_inj (by decide), pathJoin_inj (by decide),
   pathJoin_inj (by decide)⟩

theorem ensurePackageStructure_lookup (s : FsState) (cfg : ResolvedConfig) :
    ((ensurePackageStructure s cfg).lookup (pathJoin cfg.outputDir "package.json") =
      if fsExists s (pathJoin cfg.outputDir "package.json") then
        s.lookup (pathJoin cfg.outputDir "package.json")
      else some (packageJsonText cfg)) ∧
    ((ensurePackageStructure s cfg).lookup (pathJoin cfg.outputDir "tsconfig.json") =
      if fsExists s (pathJoin cfg.outputDir "tsconfig.json") then
        s.lookup (pathJoin cfg.outputDir "tsconfig.json")
      else some tsConfigText) ∧
    (∀ q, q ≠ pathJoin cfg.outputDir "package.json" →
      q ≠ pathJoin cfg.outputDir "tsconfig.json" →
      (ensurePackageStructure s cfg).lookup q = s.lookup q) := by
  obtain ⟨hpt, _⟩ := genPaths_distinct cfg.outputDir
  rw [ensurePackageStructure]
  by_cases hp : fsExists s (pathJoin cfg.outputDir "package.json") = true <;>
    by_cases ht : fsExists s (pathJoin cfg.outputDir "tsconfig.json") = true
  · rw [if_pos hp, if_pos ht, if_pos hp, if_pos ht]
    exact ⟨rfl, rfl, fun q _ _ => rfl⟩
  · rw [if_pos hp, if_neg ht, if_pos hp, if_neg ht]
    refine ⟨?_, lookup_fsWrite_self _ _ _, ?_⟩
    · exact lookup_fsWrite_other _ _ _ _ hpt
    · intro q hq1 hq2
      exact lookup_fsWrite_other _ _ _ _ hq2
  · have ht2 : fsExists (fsWrite s (pathJoin cfg.outputDir "package.json")
        (packageJsonText cfg)) (pathJoin cfg.outputDir "tsconfig.json") = true := by
      rw [fsExists_eq_lookup_isSome,
        lookup_fsWrite_other _ _ _ _ (Ne.symm hpt), ← fsExists_eq_lookup_isSome, ht]
    rw [if_neg hp, if_pos ht2, if_neg hp, if_pos ht]
    refine ⟨lookup_fsWrite_self _ _ _, ?_, ?_⟩
    · exact lookup_fsWrite_other _ _ _ _ (Ne.symm hpt)
    · intro q hq1 hq2
      exact lookup_fsWrite_other _ _ _ _ hq1
  · have ht2 : ¬ (fsExists (fsWrite s (pathJoin cfg.outputDir "package.json")
        (packageJsonText cfg)) (pathJoin cfg.outputDir "tsconfig.json") = true) := by
      rw [fsExists_eq_lookup_isSome,
        lookup_fsWrite_other _ _ _ _ (Ne.symm hpt), ← fsExists_eq_lookup_isSome]
      exact ht
    rw [if_neg hp, if_neg ht2, if_neg hp, if_neg ht]
    refine ⟨?_, lookup_fsWrite_self _ _ _, ?_⟩
    · rw [lookup_fsWrite_other _ _ _ _ hpt, lookup_fsWrite_self]
    · intro q hq1 hq2
      rw [lookup_fsWrite_other _ _ _ _ hq2, lookup_fsWrite_other _ _ _ _ hq1]

theorem generateRpcPackage_lookup (s : FsState) (cfg : ResolvedConfig)
    (clientFns serverFns : List FunctionSignature) (fenv : List MFile)
    (entry : MFile) (usedTypes : List String) :
    ((generateRpcPackage s cfg clientFns serverFns fenv entry usedTypes).lookup
        (pathJoin cfg.outputDir "types.generated.ts") = some (typesFileText cfg)) ∧
    ((generateRpcPackage s cfg clientFns serverFns fenv entry usedTypes).lookup
        (pathJoin cfg.outputDir "client.generated.ts") =
      some (sideFileText "client" clientFns serverFns cfg fenv entry usedTypes)) ∧
    ((generateRpcPackage s cfg clientFns serverFns fenv entry usedTypes).lookup
        (pathJoin cfg.outputDir "server.generated.ts") =
      some (sideFileText "server" clientFns serverFns cfg fenv entry usedTypes)) ∧
    ((generateRpcPackage s cfg clientFns serverFns fenv entry usedTypes).lookup
        (pathJoin cfg.outputDir "package.json") =
      (ensurePackageStructure s cfg).lookup (pathJoin cfg.outputDir "package.json")) ∧
    ((generateRpcPackage s cfg clientFns serverFns fenv entry usedTypes).lookup
        (pathJoin cfg.outputDir "tsconfig.json") =
      (ensurePackageStructure s cfg).lookup (pathJoin cfg.outputDir "tsconfig.json")) := by
  obtain ⟨h1, h2, h3, h4, h5, h6, h7, h8, h9, h10⟩ := genPaths_distinct cfg.outputDir
  rw [generateRpcPackage]
  refine ⟨?_, ?_, ?_, ?_, ?_⟩
  · rw [lookup_fsWrite_other _ _ _ _ h9, lookup_fsWrite_other _ _ _ _ h8,
      lookup_fsWrite_self]
  · rw [lookup_fsWrite_other _ _ _ _ h10, lookup_fsWrite_self]
  · rw [lookup_fsWrite_self]
  · rw [lookup_fsWrite_other _ _ _ _ h4, lookup_fsWrite_other _ _ _ _ h3,
      lookup_fsWrite_other _ _ _ _ h2]
  · rw [lookup_fsWrite_other _ _ _ _ h7, lookup_fsWrite_other _ _ _ _ h6,
      lookup_fsWrite_other _ _ _ _ h5]

/-- C8: generation is a deterministic function of the extracted contracts,
the configuration and the input file's import environment: two runs over any
two prior file-system states produce byte-identical contents for the three
generated modules. -/
theorem c8_generation_deterministic (s1 s2 : FsState) (cfg : ResolvedConfig)
    (clientFns serverFns : List FunctionSignature) (fenv : List MFile)
    (entry : MFile) (usedTypes : List String) :
    ((generateRpcPackage s1 cfg clientFns serverFns fenv entry usedTypes).lookup
        (pathJoin cfg.outputDir "types.generated.ts") =
      (generateRpcPackage s2 cfg clientFns serverFns fenv entry usedTypes).lookup
        (pathJoin cfg.outputDir "types.generated.ts")) ∧
    ((generateRpcPackage s1 cfg clientFns serverFns fenv entry usedTypes).lookup
        (pathJoin cfg.outputDir "client.generated.ts") =
      (generateRpcPackage s2 cfg clientFns serverFns fenv entry usedTypes).lookup
        (pathJoin cfg.outputDir "client.generated.ts")) ∧
    ((generateRpcPackage s1 cfg clientFns serverFns fenv entry usedTypes).lookup
        (pathJoin cfg.outputDir "server.generated.ts") =
      (generateRpcPackage s2 cfg clientFns serverFns fenv entry usedTypes).lookup
        (pathJoin cfg.outputDir "server.generated.ts")) := by
  obtain ⟨t1, c1, v1, _, _⟩ :=
    generateRpcPackage_lookup s1 cfg clientFns serverFns fenv entry usedTypes
  obtain ⟨t2, c2, v2, _, _⟩ :=
    generateRpcPackage_lookup s2 cfg clientFns serverFns fenv entry usedTypes
  rw [t1, t2, c1, c2, v1, v2]
  exact ⟨rfl, rfl, rfl⟩

/-- C9: the scaffolded package manifest and compiler configuration are
written only when absent: a pre-existing package.json or tsconfig.json is
byte-identical after the run, an absent one is created with the scaffold
content, and the three generated modules are always rewritten. -/
theorem c9_scaffold_never_overwritten (s : FsState) (cfg : ResolvedConfig)
    (clientFns serverFns : List FunctionSignature) (fenv : List MFile)
    (entry : MFile) (usedTypes : List String) :
    (fsExists s (pathJoin cfg.outputDir "package.json") = true →
      (generateRpcPackage s cfg clientFns serverFns fenv entry usedTypes).lookup
        (pathJoin cfg.outputDir "package.json") =
        s.lookup (pathJoin cfg.outputDir "package.json")) ∧
    (fsExists s (pathJoin cfg.outputDir "package.json") = false →
      (generateRpcPackage s cfg clientFns serverFns fenv entry usedTypes).lookup
        (pathJoin cfg.outputDir "package.json") = some (packageJsonText cfg)) ∧
    (fsExists s (pathJoin cfg.outputDir "tsconfig.json") = true →
      (generateRpcPackage s cfg clientFns serverFns fenv entry usedTypes).lookup
        (pathJoin cfg.outputDir "tsconfig.json") =
        s.lookup (pathJoin cfg.outputDir "tsconfig.json")) ∧
    (fsExists s (pathJoin cfg.outputDir "tsconfig.json") = false →
      (generateRpcPackage s cfg clientFns serverFns fenv entry usedTypes).lookup
        (pathJoin cfg.outputDir "tsconfig.json") = some tsConfigText) ∧
    ((generateRpcPackage s cfg clientFns serverFns fenv entry usedTypes).lookup
        (pathJoin cfg.outputDir "types.generated.ts") = some (typesFileText cfg)) ∧
    ((generateRpcPackage s cfg clientFns serverFns fenv entry usedTypes).lookup
        (pathJoin cfg.outputDir "client.generated.ts") =
      some (sideFileText "client" clientFns serverFns cfg fenv entry usedTypes)) ∧
    ((generateRpcPackage s cfg clientFns serverFns fenv entry usedTypes).lookup
        (pathJoin cfg.outputDir "server.generated.ts") =
      some (sideFileText "server" clientFns serverFns cfg fenv entry usedTypes)) := by
  obtain ⟨ht, hc, hs, hpkg, htsc⟩ :=
    generateRpcPackage_lookup s cfg clientFns serverFns fenv entry usedTypes
  obtain ⟨epkg, etsc, _⟩ := ensurePackageStructure_lookup s cfg
  refine ⟨?_, ?_, ?_, ?_, ht, hc, hs⟩
  · intro hx
    rw [hpkg, epkg, if_pos hx]
  · intro hx
    rw [hpkg, epkg, if_neg (by rw [hx]; exact Bool.false_ne_true)]
  · intro hx
    rw [htsc, etsc, if_pos hx]
  · intro hx
    rw [htsc, etsc, if_neg (by rw [hx]; exact Bool.false_ne_true)]

/-- Witness for C9: a run over a file system already holding a package.json
with custom contents keeps those contents, and an absent tsconfig.json is
scaffolded; the three generated modules are present afterwards. -/
theorem c9_witness :
    ((generateRpcPackage [("out/package.json", "customised")]
        ⟨"define.ts", "out", "@socket-rpc/rpc", 5000, none⟩ [] [] [] ⟨"define", [], []⟩ []).lookup
      "out/package.json" = some "customised") ∧
    ((generateRpcPackage [("out/package.json", "customised")]
        ⟨"define.ts", "out", "@socket-rpc/rpc", 5000, none⟩ [] [] [] ⟨"define", [], []⟩ []).lookup
      "out/tsconfig.json" = some tsConfigText) := by
  have h := c9_scaffold_never_overwritten [("out/package.json", "customised")]
    ⟨"define.ts", "out", "@socket-rpc/rpc", 5000, none⟩ [] [] [] ⟨"define", [], []⟩ []
  constructor
  · have := h.1 (by decide)
    rw [show pathJoin "out" "package.json" = "out/package.json" from rfl] at this
    rw [this]
    rfl
  · have := h.2.2.2.1 (by decide)
    rw [show pathJoin "out" "tsconfig.json" = "out/tsconfig.json" from rfl] at this
    rw [this]

-- Lemmas about the reference-file resolution loop.

theorem resolveInRefs_acc_mono (files : List MFile) (remaining : List String)
    (acc : List (String × List String)) :
    ∀ e ∈ acc, e ∈ resolveInRefs files remaining acc := by
  induction files generalizing remaining acc with
  | nil =>
    intro e he
    exact he
  | cons g rest ih =>
    intro e he
    rw [resolveInRefs]
    by_cases hre : remaining.isEmpty
    · rw [if_pos hre]; exact he
    · rw [if_neg hre]
      by_cases hf : (remaining.filter (fun t => declaresType g t)).isEmpty
      · rw [if_pos hf]
        exact ih _ _ e he
      · rw [if_neg hf]
        exact ih _ _ e (List.mem_append_left _ he)

theorem resolveInRefs_none (files : List MFile) (remaining : List String)
    (acc : List (String × List String)) (t : String)
    (h : t ∉ remaining ∨ files.find? (fun g => declaresType g t) = none) :
    ∀ k ts, (k, ts) ∈ resolveInRefs files remaining acc → t ∈ ts → (k, ts) ∈ acc := by
  induction files generalizing remaining acc with
  | nil =>
    intro k ts hk _
    exact hk
  | cons g rest ih =>
    intro k ts hk hts
    rw [resolveInRefs] at hk
    by_cases hre : remaining.isEmpty
    · rw [if_pos hre] at hk; exact hk
    · rw [if_neg hre] at hk
      have hnext : t ∉ remaining.filter (fun x => !(declaresType g x)) ∨
          rest.find? (fun f => declaresType f t) = none := by
        rcases h with h | h
        · exact Or.inl (fun hmem => h (List.mem_of_mem_filter hmem))
        · rw [List.find?_cons] at h
          cases hg : declaresType g t with
          | true => rw [hg] at h; exact absurd h (by simp)
          | false => rw [hg] at h; exact Or.inr h
      have hnotfound : t ∉ remaining.filter (fun x => declaresType g x) := by
        rcases h with h | h
        · exact fun hmem => h (List.mem_of_mem_filter hmem)
        · rw [List.find?_cons] at h
          cases hg : declaresType g t with
          | true => rw [hg] at h; exact absurd h (by simp)
          | false =>
            intro hmem
            have := List.of_mem_filter hmem
            rw [hg] at this
            exact Bool.false_ne_true this
      by_cases hf : (remaining.filter (fun x => declaresType g x)).isEmpty
      · rw [if_pos hf] at hk
        exact ih _ _ hnext k ts hk hts
      · rw [if_neg hf] at hk
        have := ih _ _ hnext k ts hk hts
        rcases List.mem_append.mp this with hacc | hnew
        · exact hacc
        · exfalso
          have : (k, ts) = (g.name, remaining.filter (fun x => declaresType g x)) := by
            simpa using hnew
          have hts2 : ts = remaining.filter (fun x => declaresType g x) :=
            congrArg Prod.snd this
          rw [hts2] at hts
          exact hnotfound hts

theorem resolveInRefs_found (files : List MFile) (remaining : List String)
    (acc : List (String × List String)) (t : String) (f : MFile)
    (hrem : t ∈ remaining)
    (hfind : files.find? (fun g => declaresType g t) = some f) :
    (∃ ts, (f.name, ts) ∈ resolveInRefs files remaining acc ∧ t ∈ ts) ∧
    (∀ k ts, (k, ts) ∈ resolveInRefs files remaining acc → t ∈ ts →
      ((k, ts) ∈ acc ∨ k = f.name)) := by
  induction files generalizing remaining acc with
  | nil => exact absurd hfind (by simp [List.find?])
  | cons g rest ih =>
    have hre : remaining.isEmpty = false := by
      cases remaining with
      | nil => exact absurd hrem (by simp)
      | cons x xs => rfl
    rw [resolveInRefs, hre]
    simp only [Bool.false_eq_true, if_false]
    rw [List.find?_cons] at hfind
    cases hg : declaresType g t with
    | true =>
      rw [hg] at hfind
      have hfg : f = g := (Option.some.inj hfind).symm
      subst hfg
      have htfound : t ∈ remaining.filter (fun x => declaresType f x) :=
        List.mem_filter.mpr ⟨hrem, hg⟩
      have hfne : (remaining.filter (fun x => declaresType f x)).isEmpty = false := by
        cases hc : remaining.filter (fun x => declaresType f x) with
        | nil => rw [hc] at htfound; exact absurd htfound (by simp)
        | cons y ys => rfl
      rw [if_neg (by rw [hfne]; exact Bool.false_ne_true)]
      have hnotin : t ∉ remaining.filter (fun x => !(declaresType f x)) := by
        intro hmem
        have := List.of_mem_filter hmem
        rw [hg] at this
        exact Bool.false_ne_true (by simpa using this)
      constructor
      · refine ⟨remaining.filter (fun x => declaresType f x), ?_, htfound⟩
        exact resolveInRefs_acc_mono _ _ _ _ (List.mem_append_right _ (by simp))
      · intro k ts hk hts
        have := resolveInRefs_none rest
          (remaining.filter (fun x => !(declaresType f x))) _ t (Or.inl hnotin)
          k ts hk hts
        rcases List.mem_append.mp this with hacc | hnew
        · exact Or.inl hacc
        · have : (k, ts) = (f.name, remaining.filter (fun x => declaresType f x)) := by
            simpa using hnew
          exact Or.inr (congrArg Prod.fst this)
    | false =>
      rw [hg] at hfind
      have hrem2 : t ∈ remaining.filter (fun x => !(declaresType g x)) :=
        List.mem_filter.mpr ⟨hrem, by rw [hg]; rfl⟩
      by_cases hf : (remaining.filter (fun x => declaresType g x)).isEmpty
      · rw [if_pos hf]
        exact ih _ _ hrem2 hfind
      · rw [if_neg hf]
        obtain ⟨hex, hall⟩ := ih (remaining.filter (fun x => !(declaresType g x)))
          (acc ++ [(g.name, remaining.filter (fun x => declaresType g x))]) hrem2 hfind
        constructor
        · exact hex
        · intro k ts hk hts
          rcases hall k ts hk hts with hacc | hkey
          · rcases List.mem_append.mp hacc with h1 | h2
            · exact Or.inl h1
            · exfalso
              have : (k, ts) = (g.name, remaining.filter (fun x => declaresType g x)) := by
                simpa using h2
              have hts2 : ts = remaining.filter (fun x => declaresType g x) :=
                congrArg Prod.snd this
              rw [hts2] at hts
              have := List.of_mem_filter hts
              rw [hg] at this
              exact Bool.false_ne_true this
          · exact Or.inr hkey

/-- C7 counterexample: with the reference chain entry → a → b and the type T
declared only in file b (transitively reachable but not directly referenced
by the entry file), the resolution emits no import for T, although the claim
asserts the search covers every transitively reachable file, stopping at the
first one that declares the name. -/
theorem c7_counterexample :
    addCustomTypeImports c7EnvFix entryFix "entry" ["T"] = [] ∧
    Relation.ReflTransGen (fileRefEdge c7EnvFix) entryFix fileBFix ∧
    declaresType fileBFix "T" = true ∧
    isCustomCandidate "T" = true ∧
    declaresType entryFix "T" = false ∧
    declaresType fileAFix "T" = false := by
  have e1 : fileRefEdge c7EnvFix entryFix fileAFix := ⟨"a", by decide, by decide⟩
  have e2 : fileRefEdge c7EnvFix fileAFix fileBFix := ⟨"b", by decide, by decide⟩
  refine ⟨by decide, ?_, by decide, by decide, by decide, by decide⟩
  exact Relation.ReflTransGen.tail (Relation.ReflTransGen.single e1) e2

/-- C7 (amended): for every candidate surviving the allow-list filter, the
resolution searches the entry file's own declarations first, then each file
the entry file directly references (not the transitive closure of the import
graph), stopping at the first file that declares the name; a candidate found
in no searched file is omitted from the generated imports without error. -/
theorem c7_amended_import_resolution (env : List MFile) (entry : MFile)
    (inputFilename : String) (usedTypes : List String) (t : String)
    (ht : t ∈ usedTypes.filter isCustomCandidate) :
    (declaresType entry t = true →
      (∃ ts, (inputFilename, ts) ∈
          addCustomTypeImports env entry inputFilename usedTypes ∧ t ∈ ts) ∧
      (∀ k ts, (k, ts) ∈ addCustomTypeImports env entry inputFilename usedTypes →
        t ∈ ts → k = inputFilename)) ∧
    (declaresType entry t = false →
      ∀ f, (entry.refs.filterMap (lookupFile env)).find?
          (fun g => declaresType g t) = some f →
        (∃ ts, (f.name, ts) ∈
            addCustomTypeImports env entry inputFilename usedTypes ∧ t ∈ ts) ∧
        (∀ k ts, (k, ts) ∈ addCustomTypeImports env entry inputFilename usedTypes →
          t ∈ ts → k = f.name)) ∧
    (declaresType entry t = false →
      (entry.refs.filterMap (lookupFile env)).find?
          (fun g => declaresType g t) = none →
      ∀ k ts, (k, ts) ∈ addCustomTypeImports env entry inputFilename usedTypes →
        t ∉ ts) := by
  have hCne : ¬ ((usedTypes.filter isCustomCandidate).isEmpty = true) := by
    cases hc : usedTypes.filter isCustomCandidate with
    | nil => rw [hc] at ht; exact absurd ht (by simp)
    | cons x xs => exact Bool.false_ne_true
  rw [addCustomTypeImports, if_neg hCne]
  refine ⟨?_, ?_, ?_⟩
  · intro hd
    have htin : t ∈ (usedTypes.filter isCustomCandidate).filter
        (fun x => declaresType entry x) := List.mem_filter.mpr ⟨ht, hd⟩
    have hine : ¬ (((usedTypes.filter isCustomCandidate).filter
        (fun x => declaresType entry x)).isEmpty = true) := by
      cases hc : (usedTypes.filter isCustomCandidate).filter
          (fun x => declaresType entry x) with
      | nil => rw [hc] at htin; exact absurd htin (by simp)
      | cons x xs => exact Bool.false_ne_true
    have hnotrem : t ∉ (usedTypes.filter isCustomCandidate).filter
        (fun x => !(declaresType entry x)) := by
      intro hmem
      have := List.of_mem_filter hmem
      rw [hd] at this
      exact Bool.false_ne_true (by simpa using this)
    by_cases hre : ((usedTypes.filter isCustomCandidate).filter
        (fun x => !(declaresType entry x))).isEmpty = true
    · rw [if_pos hre, if_neg hine]
      refine ⟨⟨_, by simp, htin⟩, ?_⟩
      intro k ts hk hts
      have heq : (k, ts) = (inputFilename, (usedTypes.filter isCustomCandidate).filter
          (fun x => declaresType entry x)) := by simpa using hk
      exact congrArg Prod.fst heq
    · rw [if_neg hre, if_neg hine]
      constructor
      · refine ⟨(usedTypes.filter isCustomCandidate).filter
            (fun x => declaresType entry x), ?_, htin⟩
        exact resolveInRefs_acc_mono _ _ _ _ (by simp)
      · intro k ts hk hts
        have hmem := resolveInRefs_none _ _ _ t (Or.inl hnotrem) k ts hk hts
        have heq : (k, ts) = (inputFilename, (usedTypes.filter isCustomCandidate).filter
            (fun x => declaresType entry x)) := by simpa using hmem
        exact congrArg Prod.fst heq
  · intro hd f hfind
    have hrem : t ∈ (usedTypes.filter isCustomCandidate).filter
        (fun x => !(declaresType entry x)) :=
      List.mem_filter.mpr ⟨ht, by rw [hd]; rfl⟩
    have hre : ¬ (((usedTypes.filter isCustomCandidate).filter
        (fun x => !(declaresType entry x))).isEmpty = true) := by
      cases hc : (usedTypes.filter isCustomCandidate).filter
          (fun x => !(declaresType entry x)) with
      | nil => rw [hc] at hrem; exact absurd hrem (by simp)
      | cons x xs => exact Bool.false_ne_true
    rw [if_neg hre]
    obtain ⟨hex, hall⟩ := resolveInRefs_found (entry.refs.filterMap (lookupFile env))
      _ (if ((usedTypes.filter isCustomCandidate).filter
            (fun x => declaresType entry x)).isEmpty = true then []
         else [(inputFilename, (usedTypes.filter isCustomCandidate).filter
            (fun x => declaresType entry x))]) t f hrem hfind
    refine ⟨hex, ?_⟩
    intro k ts hk hts
    rcases hall k ts hk hts with hacc | hkey
    · exfalso
      by_cases hie : ((usedTypes.filter isCustomCandidate).filter
          (fun x => declaresType entry x)).isEmpty = true
      · rw [if_pos hie] at hacc
        exact absurd hacc (by simp)
      · rw [if_neg hie] at hacc
        have heq : (k, ts) = (inputFilename, (usedTypes.filter isCustomCandidate).filter
            (fun x => declaresType entry x)) := by simpa using hacc
        have hts2 : ts = (usedTypes.filter isCustomCandidate).filter
            (fun x => declaresType entry x) := congrArg Prod.snd heq
        rw [hts2] at hts
        have hmem := List.of_mem_filter hts
        rw [hd] at hmem
        exact Bool.false_ne_true hmem
    · exact hkey
  · intro hd hfind k ts hk hts
    have hrem : t ∈ (usedTypes.filter isCustomCandidate).filter
        (fun x => !(declaresType entry x)) :=
      List.mem_filter.mpr ⟨ht, by rw [hd]; rfl⟩
    have hre : ¬ (((usedTypes.filter isCustomCandidate).filter
        (fun x => !(declaresType entry x))).isEmpty = true) := by
      cases hc : (usedTypes.filter isCustomCandidate).filter
          (fun x => !(declaresType entry x)) with
      | nil => rw [hc] at hrem; exact absurd hrem (by simp)
      | cons x xs => exact Bool.false_ne_true
    rw [if_neg hre] at hk
    have hmem := resolveInRefs_none _ _ _ t (Or.inr hfind) k ts hk hts
    by_cases hie : ((usedTypes.filter isCustomCandidate).filter
        (fun x => declaresType entry x)).isEmpty = true
    · rw [if_pos hie] at hmem
      exact absurd hmem (by simp)
    · rw [if_neg hie] at hmem
      have heq : (k, ts) = (inputFilename, (usedTypes.filter isCustomCandidate).filter
          (fun x => declaresType entry x)) := by simpa using hmem
      have hts2 : ts = (usedTypes.filter isCustomCandidate).filter
          (fun x => declaresType entry x) := congrArg Prod.snd heq
      rw [hts2] at hts
      have hdm := List.of_mem_filter hts
      rw [hd] at hdm
      exact Bool.false_ne_true hdm

/-- Witness for C7 (amended): a candidate declared by the entry file itself is
imported from the entry module, at a concrete one-file environment. -/
theorem c7_witness :
    ∃ ts, ("entry2", ts) ∈
        addCustomTypeImports [⟨"entry2", ["T"], []⟩] ⟨"entry2", ["T"], []⟩
          "entry2" ["T"] ∧ "T" ∈ ts :=
  ((c7_amended_import_resolution [⟨"entry2", ["T"], []⟩] ⟨"entry2", ["T"], []⟩
    "entry2" ["T"] "T" (by decide)).1 (by decide)).1

-- Unfolding lemmas for the base-interface walk.

theorem collectStep_nil (env : IfaceEnv) (visited : Finset String) :
    collectStep env [] visited = ([], ∅) := by
  rw [collectStep]

theorem collectStep_cons_none {env : IfaceEnv} {b : String} (rest : List String)
    (visited : Finset String) (hb : lookupIface env b = none) :
    collectStep env (b :: rest) visited = collectStep env rest visited := by
  rw [collectStep, hb]

theorem collectStep_cons_visited {env : IfaceEnv} {b : String} {bi : Iface}
    (rest : List String) (visited : Finset String)
    (hb : lookupIface env b = some bi) (hv : bi.name ∈ visited) :
    collectStep env (b :: rest) visited =
      (bi :: (collectStep env rest visited).1, (collectStep env rest visited).2) := by
  rw [collectStep]
  split
  · next heq => rw [heq] at hb; exact absurd hb (by simp)
  · next bi2 heq =>
    rw [heq] at hb
    have hbi : bi2 = bi := Option.some.inj hb
    subst hbi
    rw [dif_pos hv]

theorem collectStep_cons_new {env : IfaceEnv} {b : String} {bi : Iface}
    (rest : List String) (visited : Finset String)
    (hb : lookupIface env b = some bi) (hv : bi.name ∉ visited) :
    collectStep env (b :: rest) visited =
      (bi :: ((collectStep env bi.bases (insert bi.name visited)).1 ++
          (collectStep env rest (visited ∪ insert bi.name
            (collectStep env bi.bases (insert bi.name visited)).2)).1),
       insert bi.name (collectStep env bi.bases (insert bi.name visited)).2 ∪
          (collectStep env rest (visited ∪ insert bi.name
            (collectStep env bi.bases (insert bi.name visited)).2)).2) := by
  rw [collectStep]
  split
  · next heq => rw [heq] at hb; exact absurd hb (by simp)
  · next bi2 heq =>
    rw [heq] at hb
    have hbi : bi2 = bi := Option.some.inj hb
    subst hbi
    rw [dif_neg hv]

-- Structural facts about the walk.

theorem collectStep_canonical (env : IfaceEnv) (bs : List String)
    (visited : Finset String) :
    ∀ J ∈ (collectStep env bs visited).1, lookupIface env J.name = some J := by
  induction bs, visited using collectStep.induct env with
  | case1 visited =>
    intro J hJ
    rw [collectStep_nil] at hJ
    exact absurd hJ (by simp)
  | case2 visited b rest hb ih =>
    intro J hJ
    rw [collectStep_cons_none rest visited hb] at hJ
    exact ih J hJ
  | case3 visited b rest bi hb hv ih =>
    intro J hJ
    rw [collectStep_cons_visited rest visited hb hv] at hJ
    rcases List.mem_cons.mp hJ with rfl | hmem
    · exact lookupIface_self hb
    · exact ih J hmem
  | case4 visited b rest bi hb hv p ihp ihw ihq =>
    intro J hJ
    rw [collectStep_cons_new rest visited hb hv] at hJ
    rcases List.mem_cons.mp hJ with rfl | hmem
    · exact lookupIface_self hb
    · rcases List.mem_append.mp hmem with h1 | h2
      · exact ihp J h1
      · exact ihq J h2

theorem collectStep_pushes (env : IfaceEnv) (bs : List String)
    (visited : Finset String) :
    ∀ b ∈ bs, ∀ K, lookupIface env b = some K → K ∈ (collectStep env bs visited).1 := by
  induction bs, visited using collectStep.induct env with
  | case1 visited =>
    intro b hb
    exact absurd hb (by simp)
  | case2 visited b rest hb ih =>
    intro b2 hb2 K hK
    rw [collectStep_cons_none rest visited hb]
    rcases List.mem_cons.mp hb2 with rfl | hmem
    · rw [hb] at hK; exact absurd hK (by simp)
    · exact ih b2 hmem K hK
  | case3 visited b rest bi hb hv ih =>
    intro b2 hb2 K hK
    rw [collectStep_cons_visited rest visited hb hv]
    rcases List.mem_cons.mp hb2 with rfl | hmem
    · rw [hb] at hK
      have : bi = K := Option.some.inj hK
      subst this
      exact List.mem_cons_self _ _
    · exact List.mem_cons_of_mem _ (ih b2 hmem K hK)
  | case4 visited b rest bi hb hv p ihp ihw ihq =>
    intro b2 hb2 K hK
    rw [collectStep_cons_new rest visited hb hv]
    rcases List.mem_cons.mp hb2 with rfl | hmem
    · rw [hb] at hK
      have : bi = K := Option.some.inj hK
      subst this
      exact List.mem_cons_self _ _
    · exact List.mem_cons_of_mem _
        (List.mem_append_right _ (ihq b2 hmem K hK))

theorem collectStep_sound (env : IfaceEnv) (root : Iface) (bs : List String)
    (visited : Finset String)
    (H : ∀ b ∈ bs, ∀ K, lookupIface env b = some K →
      Relation.TransGen (edgeRel env) root K) :
    ∀ J ∈ (collectStep env bs visited).1,
      Relation.TransGen (edgeRel env) root J := by
  induction bs, visited using collectStep.induct env with
  | case1 visited =>
    intro J hJ
    rw [collectStep_nil] at hJ
    exact absurd hJ (by simp)
  | case2 visited b rest hb ih =>
    intro J hJ
    rw [collectStep_cons_none rest visited hb] at hJ
    exact ih (fun b2 hb2 K hK => H b2 (List.mem_cons_of_mem _ hb2) K hK) J hJ
  | case3 visited b rest bi hb hv ih =>
    intro J hJ
    rw [collectStep_cons_visited rest visited hb hv] at hJ
    rcases List.mem_cons.mp hJ with rfl | hmem
    · exact H b (List.mem_cons_self _ _) J hb
    · exact ih (fun b2 hb2 K hK => H b2 (List.mem_cons_of_mem _ hb2) K hK) J hmem
  | case4 visited b rest bi hb hv p ihp ihw ihq =>
    intro J hJ
    rw [collectStep_cons_new rest visited hb hv] at hJ
    have hbi : Relation.TransGen (edgeRel env) root bi :=
      H b (List.mem_cons_self _ _) bi hb
    rcases List.mem_cons.mp hJ with rfl | hmem
    · exact hbi
    · rcases List.mem_append.mp hmem with h1 | h2
      · exact ihp (fun b2 hb2 K hK =>
          Relation.TransGen.tail hbi ⟨b2, hb2, hK⟩) J h1
      · exact ihq (fun b2 hb2 K hK => H b2 (List.mem_cons_of_mem _ hb2) K hK) J h2

theorem collectStep_names_sub (env : IfaceEnv) (bs : List String)
    (visited : Finset String) :
    ∀ J ∈ (collectStep env bs visited).1,
      J.name ∈ visited ∪ (collectStep env bs visited).2 := by
  induction bs, visited using collectStep.induct env with
  | case1 visited =>
    intro J hJ
    rw [collectStep_nil] at hJ
    exact absurd hJ (by simp)
  | case2 visited b rest hb ih =>
    intro J hJ
    rw [collectStep_cons_none rest visited hb] at hJ ⊢
    exact ih J hJ
  | case3 visited b rest bi hb hv ih =>
    intro J hJ
    rw [collectStep_cons_visited rest visited hb hv] at hJ ⊢
    rcases List.mem_cons.mp hJ with rfl | hmem
    · exact Finset.mem_union_left _ hv
    · exact ih J hmem
  | case4 visited b rest bi hb hv p ihp ihw ihq =>
    intro J hJ
    rw [collectStep_cons_new rest visited hb hv] at hJ ⊢
    rcases List.mem_cons.mp hJ with rfl | hmem
    · exact Finset.mem_union_right _
        (Finset.mem_union_left _ (Finset.mem_insert_self _ _))
    · rcases List.mem_append.mp hmem with h1 | h2
      · have := ihp J h1
        rw [Finset.mem_union] at this ⊢
        rcases this with h | h
        · rw [Finset.mem_insert] at h
          rcases h with h | h
          · exact Or.inr (Finset.mem_union_left _ (by rw [h]; exact Finset.mem_insert_self _ _))
          · exact Or.inl h
        · exact Or.inr (Finset.mem_union_left _ (Finset.mem_insert_of_mem h))
      · have := ihq J h2
        rw [Finset.mem_union] at this ⊢
        rcases this with h | h
        · rw [Finset.mem_union] at h
          rcases h with h | h
          · exact Or.inl h
          · exact Or.inr (Finset.mem_union_left _ h)
        · exact Or.inr (Finset.mem_union_right _ h)

theorem collectStep_add_names (env : IfaceEnv) (bs : List String)
    (visited : Finset String) :
    ∀ n ∈ (collectStep env bs visited).2,
      ∃ J ∈ (collectStep env bs visited).1, J.name = n := by
  induction bs, visited using collectStep.induct env with
  | case1 visited =>
    intro n hn
    rw [collectStep_nil] at hn
    exact absurd hn (by simp)
  | case2 visited b rest hb ih =>
    intro n hn
    rw [collectStep_cons_none rest visited hb] at hn ⊢
    exact ih n hn
  | case3 visited b rest bi hb hv ih =>
    intro n hn
    rw [collectStep_cons_visited rest visited hb hv] at hn ⊢
    obtain ⟨J, hJ, hJn⟩ := ih n hn
    exact ⟨J, List.mem_cons_of_mem _ hJ, hJn⟩
  | case4 visited b rest bi hb hv p ihp ihw ihq =>
    intro n hn
    rw [collectStep_cons_new rest visited hb hv] at hn ⊢
    rw [Finset.mem_union] at hn
    rcases hn with hn | hn
    · rw [Finset.mem_insert] at hn
      rcases hn with rfl | hn
      · exact ⟨bi, List.mem_cons_self _ _, rfl⟩
      · obtain ⟨J, hJ, hJn⟩ := ihp n hn
        exact ⟨J, List.mem_cons_of_mem _ (List.mem_append_left _ hJ), hJn⟩
    · obtain ⟨J, hJ, hJn⟩ := ihq n hn
      exact ⟨J, List.mem_cons_of_mem _ (List.mem_append_right _ hJ), hJn⟩

theorem collectStep_closed_acc (env : IfaceEnv) (bs : List String)
    (visited : Finset String) :
    ∀ n ∈ (collectStep env bs visited).2, ∀ J, lookupIface env n = some J →
      ∀ b ∈ J.bases, ∀ K, lookupIface env b = some K →
        K ∈ (collectStep env bs visited).1 := by
  induction bs, visited using collectStep.induct env with
  | case1 visited =>
    intro n hn
    rw [collectStep_nil] at hn
    exact absurd hn (by simp)
  | case2 visited b rest hb ih =>
    intro n hn J hJ b2 hb2 K hK
    rw [collectStep_cons_none rest visited hb] at hn ⊢
    exact ih n hn J hJ b2 hb2 K hK
  | case3 visited b rest bi hb hv ih =>
    intro n hn J hJ b2 hb2 K hK
    rw [collectStep_cons_visited rest visited hb hv] at hn ⊢
    exact List.mem_cons_of_mem _ (ih n hn J hJ b2 hb2 K hK)
  | case4 visited b rest bi hb hv p ihp ihw ihq =>
    intro n hn J hJ b2 hb2 K hK
    rw [collectStep_cons_new rest visited hb hv] at hn ⊢
    rw [Finset.mem_union] at hn
    rcases hn with hn | hn
    · rw [Finset.mem_insert] at hn
      rcases hn with rfl | hn
      · have hJbi : J = bi := by
          have := lookupIface_self hb
          rw [hJ] at this
          exact Option.some.inj this
        subst hJbi
        exact List.mem_cons_of_mem _ (List.mem_append_left _
          (collectStep_pushes env J.bases (insert J.name visited) b2 hb2 K hK))
      · exact List.mem_cons_of_mem _ (List.mem_append_left _
          (ihp n hn J hJ b2 hb2 K hK))
    · exact List.mem_cons_of_mem _ (List.mem_append_right _
        (ihq n hn J hJ b2 hb2 K hK))

-- Soundness and completeness of the base-interface walk with respect to the
-- resolved extension relation.

theorem getAllBaseInterfaces_sound (env : IfaceEnv) (root : Iface) :
    ∀ J ∈ getAllBaseInterfaces env root,
      Relation.TransGen (edgeRel env) root J := by
  rw [getAllBaseInterfaces]
  exact collectStep_sound env root root.bases {root.name}
    (fun b hb K hK => Relation.TransGen.single ⟨b, hb, hK⟩)

theorem reflTransGen_root_cases (env : IfaceEnv) (root : Iface)
    (hroot : lookupIface env root.name = some root) :
    ∀ j, Relation.ReflTransGen (edgeRel env) root j →
      j = root ∨ j ∈ getAllBaseInterfaces env root := by
  intro j hj
  induction hj with
  | refl => exact Or.inl rfl
  | tail hk he ih =>
    rename_i k j2
    obtain ⟨b, hbmem, hlook⟩ := he
    rcases ih with rfl | hkacc
    · exact Or.inr (by
        rw [getAllBaseInterfaces]
        exact collectStep_pushes env k.bases {k.name} b hbmem j2 hlook)
    · rw [getAllBaseInterfaces] at hkacc ⊢
      have hkcan := collectStep_canonical env root.bases {root.name} k hkacc
      have hknames := collectStep_names_sub env root.bases {root.name} k hkacc
      rw [Finset.mem_union] at hknames
      rcases hknames with hkname | hkadd
      · rw [Finset.mem_singleton] at hkname
        have : k = root := by
          rw [hkname] at hkcan
          rw [hroot] at hkcan
          exact (Option.some.inj hkcan).symm
        subst this
        exact Or.inr (collectStep_pushes env k.bases {k.name} b hbmem j2 hlook)
      · exact Or.inr (collectStep_closed_acc env root.bases {root.name}
          k.name hkadd k hkcan b hbmem j2 hlook)

theorem getAllBaseInterfaces_complete (env : IfaceEnv) (root : Iface)
    (hroot : lookupIface env root.name = some root) :
    ∀ J, Relation.TransGen (edgeRel env) root J →
      J ∈ getAllBaseInterfaces env root := by
  intro J hJ
  obtain ⟨k, hk, hedge⟩ := Relation.TransGen.tail'_iff.mp hJ
  obtain ⟨b, hbmem, hlook⟩ := hedge
  rcases reflTransGen_root_cases env root hroot k hk with rfl | hkacc
  · rw [getAllBaseInterfaces]
    exact collectStep_pushes env k.bases {k.name} b hbmem J hlook
  · rw [getAllBaseInterfaces] at hkacc ⊢
    have hkcan := collectStep_canonical env root.bases {root.name} k hkacc
    have hknames := collectStep_names_sub env root.bases {root.name} k hkacc
    rw [Finset.mem_union] at hknames
    rcases hknames with hkname | hkadd
    · rw [Finset.mem_singleton] at hkname
      have : k = root := by
        rw [hkname] at hkcan
        rw [hroot] at hkcan
        exact (Option.some.inj hkcan).symm
      subst this
      exact collectStep_pushes env k.bases {k.name} b hbmem J hlook
    · exact collectStep_closed_acc env root.bases {root.name}
        k.name hkadd k hkcan b hbmem J hlook

-- Registration-step lemmas.

theorem extract_some_spec {p : IfaceProp} {P : Finset String} {s : FunctionSignature}
    (h : extractSignatureFromProperty p P = some s) :
    s = mkSig p ∧ p.name ∉ P ∧ qualifies p = true := by
  rw [extractSignatureFromProperty] at h
  split at h
  · exact absurd h (by simp)
  · split at h
    · exact absurd h (by simp)
    · split at h
      · exact absurd h (by simp)
      · next hmem hfn hval =>
        refine ⟨(Option.some.inj h).symm, hmem, ?_⟩
        rw [qualifies]
        have hfn2 : p.isFunc = true := by
          cases hb : p.isFunc
          · rw [hb] at hfn; exact absurd hfn (by decide)
          · rfl
        have hval2 : isValidJavaScriptIdentifier p.name = true := by
          cases hb : isValidJavaScriptIdentifier p.name
          · rw [hb] at hval; exact absurd hval (by decide)
          · rfl
        rw [hfn2, hval2]
        rfl

theorem extract_eq_some {p : IfaceProp} {P : Finset String}
    (h1 : p.name ∉ P) (h2 : qualifies p = true) :
    extractSignatureFromProperty p P = some (mkSig p) := by
  rw [qualifies, Bool.and_eq_true] at h2
  rw [extractSignatureFromProperty, if_neg h1]
  rw [if_neg (by rw [h2.1]; simp), if_neg (by rw [h2.2]; simp)]

theorem extract_eq_none_of_mem {p : IfaceProp} {P : Finset String}
    (h : p.name ∈ P) : extractSignatureFromProperty p P = none := by
  rw [extractSignatureFromProperty, if_pos h]

theorem extract_eq_none_of_not_qual {p : IfaceProp} {P : Finset String}
    (h : qualifies p = false) : extractSignatureFromProperty p P = none := by
  rw [qualifies] at h
  rw [extractSignatureFromProperty]
  rw [Bool.and_eq_false_iff] at h
  by_cases hmem : p.name ∈ P
  · rw [if_pos hmem]
  · rw [if_neg hmem]
    rcases h with h | h
    · rw [if_pos (by rw [h]; rfl)]
    · by_cases hfn : (!p.isFunc) = true
      · rw [if_pos hfn]
      · rw [if_neg hfn, if_pos (by rw [h]; rfl)]

theorem regStep_skip {st : List FunctionSignature × Finset String} {p : IfaceProp}
    (h : extractSignatureFromProperty p st.2 = none) : regStep st p = st := by
  rw [regStep, h]

theorem regStep_push {st : List FunctionSignature × Finset String} {p : IfaceProp}
    {s : FunctionSignature} (h : extractSignatureFromProperty p st.2 = some s) :
    regStep st p = (st.1 ++ [s], insert s.name st.2) := by
  rw [regStep, h]

-- The registration fold over a flat property list.

theorem registerProps_foldl (props : List IfaceProp)
    (st : List FunctionSignature × Finset String) :
    registerProps props st = props.foldl regStep st := rfl

theorem fold_ifaces_flatten (l : List Iface)
    (st : List FunctionSignature × Finset String) :
    l.foldl (fun st i => registerProps i.props st) st =
      (l.flatMap Iface.props).foldl regStep st := by
  induction l generalizing st with
  | nil => rfl
  | cons i rest ih =>
    rw [List.foldl_cons, List.flatMap_cons, List.foldl_append]
    rw [ih]
    rfl

theorem reg_prefix (props : List IfaceProp) :
    ∀ st : List FunctionSignature × Finset String,
      ∃ delta, (props.foldl regStep st).1 = st.1 ++ delta ∧
        ∀ s ∈ delta, s.name ∉ st.2 := by
  induction props with
  | nil =>
    intro st
    exact ⟨[], by simp, by simp⟩
  | cons p rest ih =>
    intro st
    rw [List.foldl_cons]
    cases hx : extractSignatureFromProperty p st.2 with
    | none =>
      rw [regStep_skip hx]
      exact ih st
    | some s =>
      rw [regStep_push hx]
      obtain ⟨hmk, hnm, hq⟩ := extract_some_spec hx
      obtain ⟨delta, hd, hn⟩ := ih (st.1 ++ [s], insert s.name st.2)
      refine ⟨s :: delta, by rw [hd]; simp, ?_⟩
      intro s2 hs2
      rcases List.mem_cons.mp hs2 with rfl | h2
      · rw [hmk, mkSig]
        exact hnm
      · intro hmem
        exact hn s2 h2 (Finset.mem_insert_of_mem hmem)

theorem reg_inv (props : List IfaceProp) :
    ∀ st : List FunctionSignature × Finset String,
      st.2 = (st.1.map FunctionSignature.name).toFinset →
      (props.foldl regStep st).2 =
        ((props.foldl regStep st).1.map FunctionSignature.name).toFinset := by
  induction props with
  | nil =>
    intro st h
    exact h
  | cons p rest ih =>
    intro st h
    rw [List.foldl_cons]
    cases hx : extractSignatureFromProperty p st.2 with
    | none =>
      rw [regStep_skip hx]
      exact ih st h
    | some s =>
      rw [regStep_push hx]
      refine ih _ ?_
      simp only [List.map_append, List.toFinset_append]
      rw [← h]
      simp [Finset.insert_eq, Finset.union_comm]

theorem reg_nodup (props : List IfaceProp) :
    ∀ st : List FunctionSignature × Finset String,
      st.2 = (st.1.map FunctionSignature.name).toFinset →
      (st.1.map FunctionSignature.name).Nodup →
      ((props.foldl regStep st).1.map FunctionSignature.name).Nodup := by
  induction props with
  | nil =>
    intro st _ hnd
    exact hnd
  | cons p rest ih =>
    intro st h hnd
    rw [List.foldl_cons]
    cases hx : extractSignatureFromProperty p st.2 with
    | none =>
      rw [regStep_skip hx]
      exact ih st h hnd
    | some s =>
      rw [regStep_push hx]
      obtain ⟨hmk, hnm, _⟩ := extract_some_spec hx
      refine ih _ ?_ ?_
      · simp only [List.map_append, List.toFinset_append]
        rw [← h]
        simp [Finset.insert_eq, Finset.union_comm]
      · simp only [List.map_append, List.map_cons, List.map_nil]
        rw [List.nodup_append]
        refine ⟨hnd, by simp, ?_⟩
        intro a ha
        simp only [List.mem_singleton]
        intro heq
        rw [heq] at ha
        rw [hmk] at ha
        rw [mkSig] at ha
        simp only at ha
        rw [h] at hnm
        exact hnm (List.mem_toFinset.mpr ha)

theorem reg_mem (props : List IfaceProp) :
    ∀ st : List FunctionSignature × Finset String,
      st.2 = (st.1.map FunctionSignature.name).toFinset →
      ∀ n, n ∈ (props.foldl regStep st).1.map FunctionSignature.name ↔
        (n ∈ st.1.map FunctionSignature.name ∨
          ∃ p ∈ props, qualifies p = true ∧ p.name = n) := by
  induction props with
  | nil =>
    intro st _ n
    simp
  | cons p rest ih =>
    intro st h n
    rw [List.foldl_cons]
    have hsplit : (∃ q ∈ p :: rest, qualifies q = true ∧ q.name = n) ↔
        ((qualifies p = true ∧ p.name = n) ∨
          ∃ q ∈ rest, qualifies q = true ∧ q.name = n) := by
      constructor
      · rintro ⟨q, hq, hc⟩
        rcases List.mem_cons.mp hq with rfl | hq2
        · exact Or.inl hc
        · exact Or.inr ⟨q, hq2, hc⟩
      · rintro (hc | ⟨q, hq, hc⟩)
        · exact ⟨p, List.mem_cons_self _ _, hc⟩
        · exact ⟨q, List.mem_cons_of_mem _ hq, hc⟩
    rw [hsplit]
    cases hx : extractSignatureFromProperty p st.2 with
    | none =>
      rw [regStep_skip hx]
      rw [ih st h n]
      rw [extractSignatureFromProperty] at hx
      split at hx
      · next hmem =>
        constructor
        · intro hcase
          exact Or.elim hcase (fun a => Or.inl a) (fun b => Or.inr (Or.inr b))
        · rintro (h1 | h2 | h3)
          · exact Or.inl h1
          · obtain ⟨_, hpn⟩ := h2
            refine Or.inl ?_
            rw [← hpn]
            rw [h] at hmem
            exact List.mem_toFinset.mp hmem
          · exact Or.inr h3
      · split at hx
        · next hmem hfn =>
          have hq : qualifies p = false := by
            rw [qualifies]
            cases hb : p.isFunc
            · rfl
            · rw [hb] at hfn; exact absurd hfn (by decide)
          constructor
          · intro hcase
            exact Or.elim hcase (fun a => Or.inl a) (fun b => Or.inr (Or.inr b))
          · rintro (h1 | h2 | h3)
            · exact Or.inl h1
            · rw [hq] at h2; exact absurd h2.1 (by decide)
            · exact Or.inr h3
        · split at hx
          · next hmem hfn hval =>
            have hq : qualifies p = false := by
              rw [qualifies]
              cases hb : isValidJavaScriptIdentifier p.name
              · simp
              · rw [hb] at hval; exact absurd hval (by decide)
            constructor
            · intro hcase
              exact Or.elim hcase (fun a => Or.inl a) (fun b => Or.inr (Or.inr b))
            · rintro (h1 | h2 | h3)
              · exact Or.inl h1
              · rw [hq] at h2; exact absurd h2.1 (by decide)
              · exact Or.inr h3
          · exact absurd hx (by simp)
    | some s =>
      rw [regStep_push hx]
      obtain ⟨hmk, hnm, hq⟩ := extract_some_spec hx
      have hinv2 : (insert s.name st.2) =
          (((st.1 ++ [s]).map FunctionSignature.name).toFinset) := by
        simp only [List.map_append, List.toFinset_append]
        rw [← h]
        simp [Finset.insert_eq, Finset.union_comm]
      rw [ih (st.1 ++ [s], insert s.name st.2) hinv2 n]
      simp only [List.map_append, List.map_cons, List.map_nil, List.mem_append,
        List.mem_singleton]
      constructor
      · rintro ((h1 | h2) | h3)
        · exact Or.inl h1
        · refine Or.inr (Or.inl ⟨hq, ?_⟩)
          rw [hmk] at h2
          rw [mkSig] at h2
          simp only at h2
          exact h2.symm
        · exact Or.inr (Or.inr h3)
      · rintro (h1 | h2 | h3)
        · exact Or.inl (Or.inl h1)
        · refine Or.inl (Or.inr ?_)
          rw [hmk, mkSig]
          simp only
          exact h2.2.symm
        · exact Or.inr h3

theorem reg_find (props : List IfaceProp) :
    ∀ st : List FunctionSignature × Finset String,
      st.2 = (st.1.map FunctionSignature.name).toFinset →
      ∀ n, n ∉ st.1.map FunctionSignature.name →
        (props.foldl regStep st).1.find? (fun s => s.name == n) =
          ((props.filter (fun p => qualifies p)).find?
            (fun p => p.name == n)).map mkSig := by
  induction props with
  | nil =>
    intro st _ n hn
    rw [List.foldl_nil, List.filter_nil, List.find?_nil]
    rw [List.find?_eq_none.mpr]
    · rfl
    · intro s hs hpred
      apply hn
      have : s.name = n := by simpa using hpred
      rw [← this]
      exact List.mem_map_of_mem FunctionSignature.name hs
  | cons p rest ih =>
    intro st h n hn
    rw [List.foldl_cons, List.filter_cons]
    cases hx : extractSignatureFromProperty p st.2 with
    | none =>
      rw [regStep_skip hx]
      have hskip : ∀ hq : qualifies p = true, (p.name == n) = false := by
        intro hq
        rw [extractSignatureFromProperty] at hx
        split at hx
        · next hmem =>
          have hmm : p.name ∈ st.1.map FunctionSignature.name := by
            rw [h] at hmem
            exact List.mem_toFinset.mp hmem
          have : p.name ≠ n := fun he => hn (he ▸ hmm)
          simpa using this
        · split at hx
          · next hmem hfn =>
            exfalso
            rw [qualifies, Bool.and_eq_true] at hq
            rw [hq.1] at hfn
            exact absurd hfn (by decide)
          · split at hx
            · next hmem hfn hval =>
              exfalso
              rw [qualifies, Bool.and_eq_true] at hq
              rw [hq.2] at hval
              exact absurd hval (by decide)
            · exact absurd hx (by simp)
      cases hq : qualifies p with
      | true =>
        rw [if_pos rfl]
        rw [List.find?_cons_of_neg _ (by rw [hskip hq]; exact Bool.false_ne_true)]
        exact ih st h n hn
      | false =>
        rw [if_neg (by decide)]
        exact ih st h n hn
    | some s =>
      rw [regStep_push hx]
      obtain ⟨hmk, hnm, hq⟩ := extract_some_spec hx
      subst hmk
      rw [if_pos (by rw [hq])]
      have hinv2 : (insert (mkSig p).name st.2) =
          (((st.1 ++ [mkSig p]).map FunctionSignature.name).toFinset) := by
        simp only [List.map_append, List.toFinset_append]
        rw [← h]
        simp [Finset.insert_eq, Finset.union_comm]
      by_cases hpn : p.name = n
      · rw [List.find?_cons_of_pos _ (by simpa using hpn)]
        obtain ⟨delta, hd, hdn⟩ := reg_prefix rest (st.1 ++ [mkSig p],
          insert (mkSig p).name st.2)
        rw [hd]
        rw [List.append_assoc, List.find?_append]
        have h1 : st.1.find? (fun s => s.name == n) = none := by
          rw [List.find?_eq_none]
          intro x hxm hpred
          apply hn
          have : x.name = n := by simpa using hpred
          rw [← this]
          exact List.mem_map_of_mem FunctionSignature.name hxm
        rw [h1]
        rw [Option.none_or]
        rw [List.cons_append, List.find?_cons_of_pos _ (by
          rw [mkSig]
          simpa using hpn)]
        rfl
      · rw [List.find?_cons_of_neg _ (by simpa using hpn)]
        refine ih (st.1 ++ [mkSig p], insert (mkSig p).name st.2) hinv2 n ?_
        simp only [List.map_append, List.mem_append, List.map_cons, List.map_nil,
          List.mem_singleton]
        rintro (h1 | h2)
        · exact hn h1
        · rw [mkSig] at h2
          simp only at h2
          exact hpn h2.symm

theorem find?_eq_some_of_all {α : Type} {pred : α → Bool} {l : List α} {a : α}
    (hex : a ∈ l) (hpa : pred a = true)
    (hall : ∀ x ∈ l, pred x = true → x = a) : l.find? pred = some a := by
  induction l with
  | nil => exact absurd hex (by simp)
  | cons x xs ih =>
    cases hpx : pred x with
    | true =>
      rw [List.find?_cons_of_pos _ hpx]
      rw [hall x (List.mem_cons_self _ _) hpx]
    | false =>
      rw [List.find?_cons_of_neg _ (by rw [hpx]; exact Bool.false_ne_true)]
      have hax : a ≠ x := fun he => by rw [he] at hpa; rw [hpa] at hpx; exact absurd hpx (by decide)
      rcases List.mem_cons.mp hex with rfl | hmem
      · exact absurd rfl hax
      · exact ih hmem (fun y hy hpy => hall y (List.mem_cons_of_mem _ hy) hpy)

/-- C2 counterexample: a contract whose single function-valued member is
named with an invalid JavaScript identifier; the member is reachable through
the (trivial) chain and function-valued, yet the resolver returns no
signature for it, so the set of returned names is not the union of distinct
function-valued member names across the chain. -/
theorem c2_counterexample :
    extractFunctionSignatures c2EnvFix weirdFix = [] ∧
    (∃ p ∈ weirdFix.props, p.isFunc = true ∧ p.name = "foo-bar") ∧
    "foo-bar" ∈ fnMemberNames weirdFix ∧
    isValidJavaScriptIdentifier "foo-bar" = false := by
  refine ⟨?_, ⟨⟨"foo-bar", true, [], "void"⟩, by decide, rfl, rfl⟩, by decide, by decide⟩
  have h1 : getAllBaseInterfaces c2EnvFix weirdFix = [] :=
    congrArg Prod.fst (collectStep_nil c2EnvFix {weirdFix.name})
  rw [extractFunctionSignatures, h1]
  show (List.foldl regStep ([], ∅) [(⟨"foo-bar", true, [], "void"⟩ : IfaceProp)]).1 = []
  rw [List.foldl_cons, List.foldl_nil]
  rw [regStep_skip (extract_eq_none_of_not_qual (by decide))]

/-- C2 (amended): for every environment and every registered contract, the
resolver terminates (it is a total function) and the set of returned
signature names is exactly the union, over every interface reachable through
the extension chain (diamonds and cycles included), of its function-valued
member names that are valid JavaScript identifiers, with no name returned
twice. -/
theorem c2_resolved_names (env : IfaceEnv) (root : Iface)
    (hroot : lookupIface env root.name = some root) :
    ((extractFunctionSignatures env root).map FunctionSignature.name).Nodup ∧
    (∀ n, n ∈ (extractFunctionSignatures env root).map FunctionSignature.name ↔
      ∃ J, Relation.ReflTransGen (edgeRel env) root J ∧ n ∈ validFnNames J) := by
  have hflat : extractFunctionSignatures env root =
      (((getAllBaseInterfaces env root ++ [root]).flatMap Iface.props).foldl
        regStep ([], ∅)).1 := by
    rw [extractFunctionSignatures, fold_ifaces_flatten]
  rw [hflat]
  have hinv : (([], ∅) : List FunctionSignature × Finset String).2 =
      ((([] : List FunctionSignature)).map FunctionSignature.name).toFinset := by
    simp
  constructor
  · exact reg_nodup _ _ hinv (by simp)
  · intro n
    rw [reg_mem _ _ hinv n]
    simp only [List.map_nil, List.not_mem_nil, false_or]
    constructor
    · rintro ⟨p, hp, hq, hpn⟩
      obtain ⟨i, hi, hpi⟩ := List.mem_flatMap.mp hp
      rcases List.mem_append.mp hi with hacc | hroot2
      · refine ⟨i, (getAllBaseInterfaces_sound env root i hacc).to_reflTransGen, ?_⟩
        rw [validFnNames]
        exact List.mem_map.mpr ⟨p, List.mem_filter.mpr ⟨hpi, hq⟩, hpn⟩
      · have : i = root := by simpa using hroot2
        subst this
        refine ⟨i, Relation.ReflTransGen.refl, ?_⟩
        rw [validFnNames]
        exact List.mem_map.mpr ⟨p, List.mem_filter.mpr ⟨hpi, hq⟩, hpn⟩
    · rintro ⟨J, hJ, hJn⟩
      rw [validFnNames] at hJn
      obtain ⟨p, hpf, hpn⟩ := List.mem_map.mp hJn
      have hpq := List.mem_filter.mp hpf
      have hJmem : J ∈ getAllBaseInterfaces env root ++ [root] := by
        rcases Relation.reflTransGen_iff_eq_or_transGen.mp hJ with heq | htg
        · rw [heq]
          exact List.mem_append_right _ (by simp)
        · exact List.mem_append_left _
            (getAllBaseInterfaces_complete env root hroot J htg)
      exact ⟨p, List.mem_flatMap.mpr ⟨J, hJmem, hpq.1⟩, hpq.2, hpn⟩

/-- Witness for C2 (amended) at a concrete registered contract. -/
theorem c2_witness :
    ((extractFunctionSignatures c2EnvFix weirdFix).map FunctionSignature.name).Nodup ∧
    (∀ n, n ∈ (extractFunctionSignatures c2EnvFix weirdFix).map
        FunctionSignature.name ↔
      ∃ J, Relation.ReflTransGen (edgeRel c2EnvFix) weirdFix J ∧
        n ∈ validFnNames J) :=
  c2_resolved_names c2EnvFix weirdFix (by decide)

/-- C1: when an ancestor interface A, reachable through the descendant D's
extension chain, is the only interface in the chain declaring a
function-valued member named n (D's own redeclaration aside), the resolver
returns the ancestor's signature for n: ancestors are concatenated before
the contract itself and registration keeps the first occurrence, so the
ancestor's member registers before the descendant's redeclaration is seen. -/
theorem c1_ancestor_wins (env : IfaceEnv) (D A : Iface) (n : String)
    (pA pD : IfaceProp)
    (hrootD : lookupIface env D.name = some D)
    (hanc : Relation.TransGen (edgeRel env) D A)
    (hpA : pA ∈ A.props) (hpAname : pA.name = n) (hpAfn : pA.isFunc = true)
    (hvalid : isValidJavaScriptIdentifier n = true)
    (hpD : pD ∈ D.props) (hpDname : pD.name = n)
    (huniq : ∀ J, Relation.TransGen (edgeRel env) D J → ∀ p ∈ J.props,
      p.name = n → p.isFunc = true → J = A ∧ p = pA) :
    mkSig pA ∈ extractFunctionSignatures env D ∧
    (∀ s ∈ extractFunctionSignatures env D, s.name = n → s = mkSig pA) := by
  have hqA : qualifies pA = true := by
    rw [qualifies, hpAname, hpAfn, hvalid]
    rfl
  have hflat : extractFunctionSignatures env D =
      (((getAllBaseInterfaces env D ++ [D]).flatMap Iface.props).foldl
        regStep ([], ∅)).1 := by
    rw [extractFunctionSignatures, fold_ifaces_flatten]
  have hinv : (([], ∅) : List FunctionSignature × Finset String).2 =
      ((([] : List FunctionSignature)).map FunctionSignature.name).toFinset := by
    simp
  have hfind := reg_find ((getAllBaseInterfaces env D ++ [D]).flatMap Iface.props)
    ([], ∅) hinv n (by simp)
  have haccA : A ∈ getAllBaseInterfaces env D :=
    getAllBaseInterfaces_complete env D hrootD A hanc
  have hsplitFlat : (getAllBaseInterfaces env D ++ [D]).flatMap Iface.props =
      (getAllBaseInterfaces env D).flatMap Iface.props ++ D.props := by
    rw [List.flatMap_append]
    simp
  have haccFind : (((getAllBaseInterfaces env D).flatMap Iface.props).filter
      (fun p => qualifies p)).find? (fun p => p.name == n) = some pA := by
    apply find?_eq_some_of_all
    · exact List.mem_filter.mpr
        ⟨List.mem_flatMap.mpr ⟨A, haccA, hpA⟩, hqA⟩
    · simpa using hpAname
    · intro x hx hpred
      have hx2 := List.mem_filter.mp hx
      obtain ⟨i, hi, hxi⟩ := List.mem_flatMap.mp hx2.1
      have hreach := getAllBaseInterfaces_sound env D i hi
      have hxn : x.name = n := by simpa using hpred
      have hxfn : x.isFunc = true := by
        have := hx2.2
        rw [qualifies, Bool.and_eq_true] at this
        exact this.1
      exact (huniq i hreach x hxi hxn hxfn).2
  have hresfind : (extractFunctionSignatures env D).find?
      (fun s => s.name == n) = some (mkSig pA) := by
    rw [hflat, hfind, hsplitFlat, List.filter_append, List.find?_append, haccFind]
    rfl
  constructor
  · exact List.mem_of_find?_eq_some hresfind
  · intro s hs hsn
    have hnd : ((extractFunctionSignatures env D).map FunctionSignature.name).Nodup := by
      rw [hflat]
      exact reg_nodup _ _ hinv (by simp)
    have hmemA : mkSig pA ∈ extractFunctionSignatures env D :=
      List.mem_of_find?_eq_some hresfind
    refine List.inj_on_of_nodup_map hnd hs hmemA ?_
    rw [hsn, mkSig, hpAname]

/-- Witness for C1 at the concrete scenario Greeter extends Base, both
declaring ping; the resolved signature for ping is Base's. -/
theorem c1_witness :
    mkSig ⟨"ping", true, [], "string"⟩ ∈
      extractFunctionSignatures c1EnvFix greeterFix ∧
    (∀ s ∈ extractFunctionSignatures c1EnvFix greeterFix, s.name = "ping" →
      s = mkSig ⟨"ping", true, [], "string"⟩) := by
  have hreach : ∀ J, Relation.TransGen (edgeRel c1EnvFix) greeterFix J →
      J = baseFix := by
    intro J h
    induction h with
    | single h1 =>
      obtain ⟨b, hb, hl⟩ := h1
      have hb2 : b = "Base" := by simpa [greeterFix] using hb
      subst hb2
      have hlb : lookupIface c1EnvFix "Base" = some baseFix := by decide
      rw [hlb] at hl
      exact (Option.some.inj hl).symm
    | tail h1 h2 ih =>
      obtain ⟨b, hb, hl⟩ := h2
      rw [ih] at hb
      simp [baseFix] at hb
  refine c1_ancestor_wins c1EnvFix greeterFix baseFix "ping"
    ⟨"ping", true, [], "string"⟩ ⟨"ping", true, [], "number"⟩
    (by decide)
    (Relation.TransGen.single ⟨"Base", by decide, by decide⟩)
    (by decide) rfl rfl (by decide) (by decide) rfl ?_
  intro J hJ p hp hn hf
  have hJB := hreach J hJ
  subst hJB
  have hpB : p = (⟨"ping", true, [], "string"⟩ : IfaceProp) := by
    have hp2 : p ∈ [(⟨"ping", true, [], "string"⟩ : IfaceProp)] := hp
    simpa using hp2
  exact ⟨rfl, hpB⟩
